import Mathlib

/-!
A Lean model of the tipfy secure-cookie session module
(`tipfy/sessions/__init__.py`): the secure cookie wire format
(base64 payload, decimal timestamp, HMAC-SHA1 signature), the
per-request session store, and the session objects with flash-message
support.

Python 2 byte strings are modelled as lists of characters whose code
points stay below 256; 32-bit machine words are `Nat` values reduced
modulo `2 ^ 32`.  Fallible Python code (statements that can raise) is
modelled with `Except`.
-/

namespace Tipfy

/-- Python 2 `str`: a sequence of characters. -/
abbrev PyStr := List Char

/-- Shorthand turning a Lean string literal into a `PyStr`. -/
def pys (s : String) : PyStr := s.data

/-- The byte values of a Python 2 string (each character is one byte). -/
def bytesOf (s : PyStr) : List Nat := s.map Char.toNat

/-- A Python 2 string built from raw byte values. -/
def strOfBytes (bs : List Nat) : PyStr := bs.map Char.ofNat

/-- Python `value.split(sep)` for a one-character separator: always
returns at least one piece, with empty pieces kept. -/
def pySplit (sep : Char) : PyStr → List PyStr
  | [] => [[]]
  | c :: r =>
    match pySplit sep r with
    | [] => [[]]
    | p :: ps => if c = sep then [] :: p :: ps else (c :: p) :: ps

/-- Python `sep.join(parts)` for a one-character separator. -/
def joinSep (sep : Char) : List PyStr → PyStr
  | [] => []
  | [p] => p
  | p :: ps => p ++ sep :: joinSep sep ps

/-- Whether a character is an ASCII decimal digit. -/
def isDigitCh (c : Char) : Bool := 48 ≤ c.toNat && c.toNat ≤ 57

/-- The value of an ASCII decimal digit. -/
def digitVal (c : Char) : Nat := c.toNat - 48

/-- The decimal digit character for a value below ten. -/
def digitCh (d : Nat) : Char := Char.ofNat (48 + d)

/-- Numeric value of a string of decimal digits, most significant first. -/
def digitsVal (s : PyStr) : Nat := s.foldl (fun a c => a * 10 + digitVal c) 0

/-- Fuelled decimal printer for natural numbers. -/
def natDecAux : Nat → Nat → PyStr
  | 0, _ => []
  | fuel + 1, n =>
    if n < 10 then [digitCh n] else natDecAux fuel (n / 10) ++ [digitCh (n % 10)]

/-- Python `str(n)` for a non-negative integer `n`. -/
def natDecimal (n : Nat) : PyStr := natDecAux (n + 1) n

/-- Python `str(i)` for an integer `i`. -/
def intDecimal (i : Int) : PyStr :=
  if i < 0 then '-' :: natDecimal i.natAbs else natDecimal i.natAbs

/-- Whitespace characters stripped by Python `int()`: space, tab, newline,
carriage return, vertical tab and form feed. -/
def isSpaceCh (c : Char) : Bool :=
  c.toNat = 32 || c.toNat = 9 || c.toNat = 10 || c.toNat = 13 || c.toNat = 11 || c.toNat = 12

/-- Python `int(s)`: optional surrounding whitespace, an optional sign and
at least one decimal digit; `none` models a raised `ValueError`. -/
def pyInt (s : PyStr) : Option Int :=
  match ((s.dropWhile isSpaceCh).reverse.dropWhile isSpaceCh).reverse with
  | [] => none
  | c :: ds =>
    if c = '-' then
      if ds ≠ [] ∧ ds.all isDigitCh then some (-(digitsVal ds : Int)) else none
    else if c = '+' then
      if ds ≠ [] ∧ ds.all isDigitCh then some (digitsVal ds : Int) else none
    else if (c :: ds).all isDigitCh then some (digitsVal (c :: ds) : Int) else none

/-- The lowercase hexadecimal digit for a value below sixteen. -/
def hexDigitCh (d : Nat) : Char := "0123456789abcdef".data.getD d '?'

/-- Whether a character is a lowercase hexadecimal digit or decimal digit. -/
def isHexCh (c : Char) : Bool :=
  isDigitCh c || (97 ≤ c.toNat && c.toNat ≤ 102)

/-- The value of a (lowercase) hexadecimal digit character. -/
def hexVal (c : Char) : Nat :=
  if isDigitCh c then c.toNat - 48 else c.toNat - 87

/-- Two lowercase hex characters for one byte. -/
def hexByte (b : Nat) : PyStr := [hexDigitCh (b / 16 % 16), hexDigitCh (b % 16)]

/-- Lowercase hex rendering of a byte sequence, as `hexdigest` produces. -/
def hexOfBytes : List Nat → PyStr
  | [] => []
  | b :: bs => hexByte b ++ hexOfBytes bs

/-- The base64 alphabet in order. -/
def b64digit (d : Nat) : Char :=
  "ABCDEFGHIJKLMNOPQRSTUVWXYZabcdefghijklmnopqrstuvwxyz0123456789+/".data.getD d '?'

/-- Index of a character in the base64 alphabet. -/
def b64index (c : Char) : Option Nat :=
  "ABCDEFGHIJKLMNOPQRSTUVWXYZabcdefghijklmnopqrstuvwxyz0123456789+/".data.findIdx?
    (fun d => d = c)

/-- Standard base64 encoding of a byte sequence (`base64.b64encode`). -/
def b64enc : List Nat → PyStr
  | [] => []
  | [a] => [b64digit (a / 4), b64digit (a % 4 * 16), '=', '=']
  | [a, b] => [b64digit (a / 4), b64digit (a % 4 * 16 + b / 16), b64digit (b % 16 * 4), '=']
  | a :: b :: c :: rest =>
    b64digit (a / 4) :: b64digit (a % 4 * 16 + b / 16) ::
      b64digit (b % 16 * 4 + c / 64) :: b64digit (c % 64) :: b64enc rest

/-- Standard base64 decoding (`base64.b64decode`); `none` models a raised
decoding error. -/
def b64dec : PyStr → Option (List Nat)
  | [] => some []
  | c1 :: c2 :: c3 :: c4 :: rest =>
    if c3 = '=' then
      if c4 = '=' ∧ rest = [] then
        match b64index c1, b64index c2 with
        | some d1, some d2 => some [d1 * 4 + d2 / 16]
        | _, _ => none
      else none
    else if c4 = '=' then
      if rest = [] then
        match b64index c1, b64index c2, b64index c3 with
        | some d1, some d2, some d3 => some [d1 * 4 + d2 / 16, d2 % 16 * 16 + d3 / 4]
        | _, _, _ => none
      else none
    else
      match b64index c1, b64index c2, b64index c3, b64index c4, b64dec rest with
      | some d1, some d2, some d3, some d4, some bs =>
        some ((d1 * 4 + d2 / 16) :: (d2 % 16 * 16 + d3 / 4) :: (d3 % 4 * 64 + d4) :: bs)
      | _, _, _, _, _ => none
  | _ => none

/-- The opening brace character. -/
def lbrace : Char := Char.ofNat 123

/-- The closing brace character. -/
def rbrace : Char := Char.ofNat 125

mutual
/-- Modelled from the spec: a JSON-serializable value, the payload type of
`tipfy.utils.json_encode` and `json_decode` (whose source is not part of
this repository snapshot).  Strings are sequences of 16-bit code units as
in Python 2; numbers are modelled as integers. -/
inductive Json where
  | null : Json
  | bool : Bool → Json
  | num : Int → Json
  | str : List Nat → Json
  | arr : JArr → Json
  | obj : JObj → Json
/-- A JSON array, as a specialised list. -/
inductive JArr where
  | nil : JArr
  | cons : Json → JArr → JArr
/-- A JSON object: an ordered sequence of key-value members. -/
inductive JObj where
  | nil : JObj
  | cons : List Nat → Json → JObj → JObj
end

/-- Whether a JSON value is an object (a Python mapping). -/
def Json.isObj : Json → Bool
  | .obj _ => true
  | _ => false

mutual
/-- Every string code unit (keys included) fits in 16 bits. -/
def Json.wf : Json → Bool
  | .str s => s.all (fun u => u < 65536)
  | .arr a => JArr.wf a
  | .obj o => JObj.wf o
  | _ => true
/-- Well-formedness of every element of a JSON array. -/
def JArr.wf : JArr → Bool
  | .nil => true
  | .cons j rest => Json.wf j && JArr.wf rest
/-- Well-formedness of every member of a JSON object. -/
def JObj.wf : JObj → Bool
  | .nil => true
  | .cons k v rest => k.all (fun u => u < 65536) && Json.wf v && JObj.wf rest
end

/-- Modelled from the spec: the escape-aware serialization of one string
code unit as canonical JSON emits it — quote and backslash get a
backslash escape, other printable ASCII passes through, and everything
else becomes a four-digit lowercase hexadecimal escape. -/
def encUnit (u : Nat) : PyStr :=
  if u = 34 then ['\\', '"']
  else if u = 92 then ['\\', '\\']
  else if 32 ≤ u ∧ u ≤ 126 then [Char.ofNat u]
  else ['\\', 'u', hexDigitCh (u / 4096 % 16), hexDigitCh (u / 256 % 16),
    hexDigitCh (u / 16 % 16), hexDigitCh (u % 16)]

/-- Serialization of the code units of a JSON string body. -/
def encUnits : List Nat → PyStr
  | [] => []
  | u :: us => encUnit u ++ encUnits us

mutual
/-- Modelled from the spec: `json_encode(value, separators=(',', ':'))`,
the canonical compact JSON serialization with no extraneous whitespace. -/
def jsonEncode : Json → PyStr
  | .null => 'n' :: ['u', 'l', 'l']
  | .bool true => 't' :: ['r', 'u', 'e']
  | .bool false => 'f' :: ['a', 'l', 's', 'e']
  | .num i => intDecimal i
  | .str s => '"' :: encUnits s ++ ['"']
  | .arr .nil => ['[', ']']
  | .arr (.cons j rest) => '[' :: jsonEncode j ++ encArr rest ++ [']']
  | .obj .nil => [lbrace, rbrace]
  | .obj (.cons k v rest) =>
    lbrace :: ('"' :: encUnits k ++ ['"', ':']) ++ jsonEncode v ++ encObj rest ++ [rbrace]
/-- Comma-prefixed serialization of the remaining array elements. -/
def encArr : JArr → PyStr
  | .nil => []
  | .cons j rest => ',' :: jsonEncode j ++ encArr rest
/-- Comma-prefixed serialization of the remaining object members. -/
def encObj : JObj → PyStr
  | .nil => []
  | .cons k v rest => ',' :: ('"' :: encUnits k ++ ['"', ':']) ++ jsonEncode v ++ encObj rest
end

/-- Parser for the body of a JSON string, after the opening quote; returns
the code units and the input following the closing quote. -/
def pStringUnits : PyStr → Option (List Nat × PyStr)
  | [] => none
  | c :: r =>
    if c = '"' then some ([], r)
    else if c = '\\' then
      match r with
      | [] => none
      | e :: r2 =>
        if e = '"' then (pStringUnits r2).map (fun p => (34 :: p.1, p.2))
        else if e = '\\' then (pStringUnits r2).map (fun p => (92 :: p.1, p.2))
        else if e = '/' then (pStringUnits r2).map (fun p => (47 :: p.1, p.2))
        else if e = 'b' then (pStringUnits r2).map (fun p => (8 :: p.1, p.2))
        else if e = 'f' then (pStringUnits r2).map (fun p => (12 :: p.1, p.2))
        else if e = 'n' then (pStringUnits r2).map (fun p => (10 :: p.1, p.2))
        else if e = 'r' then (pStringUnits r2).map (fun p => (13 :: p.1, p.2))
        else if e = 't' then (pStringUnits r2).map (fun p => (9 :: p.1, p.2))
        else if e = 'u' then
          match r2 with
          | h1 :: h2 :: h3 :: h4 :: r3 =>
            if isHexCh h1 && isHexCh h2 && isHexCh h3 && isHexCh h4 then
              (pStringUnits r3).map
                (fun p => ((hexVal h1 * 4096 + hexVal h2 * 256 + hexVal h3 * 16 + hexVal h4) :: p.1, p.2))
            else none
          | _ => none
        else none
    else (pStringUnits r).map (fun p => (c.toNat :: p.1, p.2))

/-- The maximal prefix of decimal digits and the rest of the input. -/
def pDigits : PyStr → PyStr × PyStr
  | [] => ([], [])
  | c :: r =>
    if isDigitCh c then ((pDigits r).1.cons c, (pDigits r).2)
    else ([], c :: r)

/-- Parser for a JSON integer literal: an optional minus sign and a
maximal run of decimal digits. -/
def pNum : PyStr → Option (Json × PyStr)
  | [] => none
  | c :: r =>
    if c = '-' then
      if (pDigits r).1 = [] then none
      else some (.num (-(digitsVal (pDigits r).1 : Int)), (pDigits r).2)
    else
      if (pDigits (c :: r)).1 = [] then none
      else some (.num (digitsVal (pDigits (c :: r)).1 : Int), (pDigits (c :: r)).2)

mutual
/-- Fuelled parser for one JSON value; the fuel bounds the depth of
recursive parser calls. -/
def pVal : Nat → PyStr → Option (Json × PyStr)
  | 0, _ => none
  | _ + 1, [] => none
  | fuel + 1, c :: r =>
    if c = 'n' then
      match r with
      | c2 :: c3 :: c4 :: r2 =>
        if c2 = 'u' ∧ c3 = 'l' ∧ c4 = 'l' then some (.null, r2) else none
      | _ => none
    else if c = 't' then
      match r with
      | c2 :: c3 :: c4 :: r2 =>
        if c2 = 'r' ∧ c3 = 'u' ∧ c4 = 'e' then some (.bool true, r2) else none
      | _ => none
    else if c = 'f' then
      match r with
      | c2 :: c3 :: c4 :: c5 :: r2 =>
        if c2 = 'a' ∧ c3 = 'l' ∧ c4 = 's' ∧ c5 = 'e' then some (.bool false, r2) else none
      | _ => none
    else if c = '"' then (pStringUnits r).map (fun p => (.str p.1, p.2))
    else if c = '[' then (pArr fuel r).map (fun p => (.arr p.1, p.2))
    else if c = lbrace then (pObjTop fuel r).map (fun p => (.obj p.1, p.2))
    else pNum (c :: r)
/-- Fuelled parser for a JSON array body, after the opening bracket. -/
def pArr : Nat → PyStr → Option (JArr × PyStr)
  | 0, _ => none
  | _ + 1, [] => none
  | fuel + 1, c :: r =>
    if c = ']' then some (.nil, r) else pElems fuel (c :: r)
/-- Fuelled parser for the elements of a non-empty JSON array. -/
def pElems : Nat → PyStr → Option (JArr × PyStr)
  | 0, _ => none
  | fuel + 1, s =>
    match pVal fuel s with
    | none => none
    | some (j, rest) =>
      match rest with
      | [] => none
      | c :: r2 =>
        if c = ',' then (pElems fuel r2).map (fun p => (.cons j p.1, p.2))
        else if c = ']' then some (.cons j .nil, r2)
        else none
/-- Fuelled parser for a JSON object body, after the opening brace. -/
def pObjTop : Nat → PyStr → Option (JObj × PyStr)
  | 0, _ => none
  | _ + 1, [] => none
  | fuel + 1, c :: r =>
    if c = rbrace then some (.nil, r) else pMembers fuel (c :: r)
/-- Fuelled parser for the members of a non-empty JSON object. -/
def pMembers : Nat → PyStr → Option (JObj × PyStr)
  | 0, _ => none
  | _ + 1, [] => none
  | fuel + 1, c :: r =>
    if c = '"' then
      match pStringUnits r with
      | none => none
      | some (k, rest) =>
        match rest with
        | [] => none
        | c2 :: r2 =>
          if c2 = ':' then
            match pVal fuel r2 with
            | none => none
            | some (v, rest2) =>
              match rest2 with
              | [] => none
              | c3 :: r3 =>
                if c3 = ',' then (pMembers fuel r3).map (fun p => (.cons k v p.1, p.2))
                else if c3 = rbrace then some (.cons k v .nil, r3)
                else none
          else none
    else none
end

/-- Modelled from the spec: `json_decode`, parsing a complete JSON
document; `none` models a raised decoding error.  The fuel is a bound on
parser recursion depth that suffices for any document of this length. -/
def jsonDecode (s : PyStr) : Option Json :=
  match pVal (2 * s.length + 2) s with
  | some (j, []) => some j
  | _ => none

/-- Whether an input suffix cannot extend a decimal literal: used to state
where the number parser stops. -/
def numStop : PyStr → Bool
  | [] => true
  | c :: _ => !(isDigitCh c)

mutual
/-- A sufficient parser fuel for one encoded JSON value. -/
def fuelJ : Json → Nat
  | .null => 1
  | .bool _ => 1
  | .num _ => 1
  | .str _ => 1
  | .arr a => 1 + fuelArr a
  | .obj o => 1 + fuelObjTop o
/-- A sufficient parser fuel for an encoded array body. -/
def fuelArr : JArr → Nat
  | .nil => 1
  | .cons j rest => 1 + fuelElems (.cons j rest)
/-- A sufficient parser fuel for the encoded elements of a non-empty array. -/
def fuelElems : JArr → Nat
  | .nil => 1
  | .cons j rest => 1 + max (fuelJ j) (fuelElems rest)
/-- A sufficient parser fuel for an encoded object body. -/
def fuelObjTop : JObj → Nat
  | .nil => 1
  | .cons k v rest => 1 + fuelMembers (.cons k v rest)
/-- A sufficient parser fuel for the encoded members of a non-empty object. -/
def fuelMembers : JObj → Nat
  | .nil => 1
  | .cons _ v rest => 1 + max (fuelJ v) (fuelMembers rest)
end

/-- Reduction modulo `2 ^ 32`, the 32-bit word arithmetic of SHA-1. -/
def w32 (n : Nat) : Nat := n % 4294967296

/-- Addition of 32-bit words. -/
def wadd (a b : Nat) : Nat := w32 (a + b)

/-- Left rotation of a 32-bit word by `k` bits. -/
def rotl (k n : Nat) : Nat := w32 (n <<< k ||| n >>> (32 - k))

/-- Big-endian packing of bytes into 32-bit words. -/
def words32 : List Nat → List Nat
  | b1 :: b2 :: b3 :: b4 :: r => (((b1 * 256 + b2) * 256 + b3) * 256 + b4) :: words32 r
  | _ => []

/-- Big-endian unpacking of one 32-bit word into four bytes. -/
def wordBytes (w : Nat) : List Nat :=
  [w / 16777216 % 256, w / 65536 % 256, w / 256 % 256, w % 256]

/-- Big-endian unpacking of a 64-bit value into eight bytes. -/
def be64 (n : Nat) : List Nat :=
  [n / 2 ^ 56 % 256, n / 2 ^ 48 % 256, n / 2 ^ 40 % 256, n / 2 ^ 32 % 256,
    n / 2 ^ 24 % 256, n / 2 ^ 16 % 256, n / 2 ^ 8 % 256, n % 256]

/-- SHA-1 message-schedule extension; `acc` holds the words produced so
far, most recent first. -/
def shaExtend : Nat → List Nat → List Nat
  | 0, acc => acc
  | k + 1, acc =>
    shaExtend k (rotl 1 (acc.getD 2 0 ^^^ acc.getD 7 0 ^^^ acc.getD 13 0 ^^^ acc.getD 15 0) :: acc)

/-- The SHA-1 round function for round `i`. -/
def shaF (i b c d : Nat) : Nat :=
  if i < 20 then (b &&& c) ||| ((b ^^^ 4294967295) &&& d)
  else if i < 40 then b ^^^ c ^^^ d
  else if i < 60 then (b &&& c) ||| (b &&& d) ||| (c &&& d)
  else b ^^^ c ^^^ d

/-- The SHA-1 round constant for round `i`. -/
def shaK (i : Nat) : Nat :=
  if i < 20 then 1518500249
  else if i < 40 then 1859775393
  else if i < 60 then 2400959708
  else 3395469782

/-- The 80 SHA-1 rounds over the indexed message schedule. -/
def shaRounds : List (Nat × Nat) → Nat × Nat × Nat × Nat × Nat → Nat × Nat × Nat × Nat × Nat
  | [], st => st
  | (i, w) :: rest, (a, b, c, d, e) =>
    shaRounds rest
      (w32 (rotl 5 a + shaF i b c d + e + shaK i + w), a, rotl 30 b, c, d)

/-- One SHA-1 compression step over a 64-byte chunk. -/
def shaCompress (h : Nat × Nat × Nat × Nat × Nat) (chunk : List Nat) :
    Nat × Nat × Nat × Nat × Nat :=
  let ws := (shaExtend 64 (words32 chunk).reverse).reverse
  match h, shaRounds ((List.range 80).zip ws) h with
  | (h0, h1, h2, h3, h4), (a, b, c, d, e) =>
    (wadd h0 a, wadd h1 b, wadd h2 c, wadd h3 d, wadd h4 e)

/-- Fuelled iteration of the compression function over 64-byte chunks. -/
def shaChunks : Nat → List Nat → Nat × Nat × Nat × Nat × Nat → Nat × Nat × Nat × Nat × Nat
  | 0, _, st => st
  | fuel + 1, bs, st =>
    match bs with
    | [] => st
    | _ :: _ => shaChunks fuel (bs.drop 64) (shaCompress st (bs.take 64))

/-- SHA-1 padding: a `0x80` byte, zeros, and the 64-bit bit length. -/
def sha1pad (msg : List Nat) : List Nat :=
  msg ++ 128 :: List.replicate ((119 - msg.length % 64) % 64) 0 ++ be64 (8 * msg.length)

/-- The SHA-1 digest (20 bytes) of a byte sequence. -/
def sha1 (msg : List Nat) : List Nat :=
  match shaChunks (sha1pad msg).length (sha1pad msg)
      (1732584193, 4023233417, 2562383102, 271733878, 3285377520) with
  | (a, b, c, d, e) =>
    wordBytes a ++ wordBytes b ++ wordBytes c ++ wordBytes d ++ wordBytes e

/-- HMAC-SHA1 (`hmac.new(key, msg, hashlib.sha1).digest()`). -/
def hmacSha1 (key msg : List Nat) : List Nat :=
  let k0 := if 64 < key.length then sha1 key else key
  let k1 := k0 ++ List.replicate (64 - k0.length) 0
  sha1 ((k1.map (fun b => b ^^^ 92)) ++ sha1 ((k1.map (fun b => b ^^^ 54)) ++ msg))

/-- A raised Python exception. -/
inductive PyErr where
  | valueError : PyErr
  | keyError : PyErr
  | typeError : PyErr
deriving DecidableEq

/-- Python dict lookup `d.get(k)` on an insertion-ordered association list. -/
def dictGet [DecidableEq κ] : List (κ × α) → κ → Option α
  | [], _ => none
  | (k1, v1) :: rest, k => if k1 = k then some v1 else dictGet rest k

/-- Python dict assignment `d[k] = v`: replaces in place, appends when new. -/
def dictSet [DecidableEq κ] : List (κ × α) → κ → α → List (κ × α)
  | [], k, v => [(k, v)]
  | (k1, v1) :: rest, k, v =>
    if k1 = k then (k, v) :: rest else (k1, v1) :: dictSet rest k v

/-- Python dict removal `d.pop(k, ...)`, dropping the entry for `k`. -/
def dictPop [DecidableEq κ] : List (κ × α) → κ → List (κ × α)
  | [], _ => []
  | (k1, v1) :: rest, k => if k1 = k then rest else (k1, v1) :: dictPop rest k

/-- Python `base.copy()` followed by `.update(upd)`. -/
def dictUpdate [DecidableEq κ] (base upd : List (κ × α)) : List (κ × α) :=
  upd.foldl (fun acc p => dictSet acc p.1 p.2) base

/-- Folding JSON object members into a Python dict, later keys winning. -/
def jobjToDictAux : List (List Nat × Json) → JObj → List (List Nat × Json)
  | acc, .nil => acc
  | acc, .cons k v rest => jobjToDictAux (dictSet acc k v) rest

/-- The Python dict a decoded JSON object turns into. -/
def jobjToDict (o : JObj) : List (List Nat × Json) := jobjToDictAux [] o

/-- A JSON object built back from a Python dict, in insertion order. -/
def jobjOfList : List (List Nat × Json) → JObj
  | [] => .nil
  | (k, v) :: rest => .cons k v (jobjOfList rest)

/-- Python truthiness of a decoded JSON value. -/
def pyTruthy : Json → Bool
  | .null => false
  | .bool b => b
  | .num n => n != 0
  | .str s => !s.isEmpty
  | .arr .nil => false
  | .arr (.cons _ _) => true
  | .obj .nil => false
  | .obj (.cons _ _ _) => true

/-- `SecureCookieStore._get_signature`: hex HMAC-SHA1 keyed by the secret
over the `|`-join of the given parts. -/
def SecureCookieStore.get_signature (secret : PyStr) (parts : List PyStr) : PyStr :=
  hexOfBytes (hmacSha1 (bytesOf secret) (bytesOf (joinSep '|' parts)))

/-- `SecureCookieStore._check_signature`: length check, then a
constant-time accumulated comparison. -/
def SecureCookieStore.check_signature (a b : PyStr) : Bool :=
  if a.length ≠ b.length then false
  else ((a.zip b).foldl (fun r p => r ||| (p.1.toNat ^^^ p.2.toNat)) 0) == 0

/-- `SecureCookieStore._encode`: base64 of the compact JSON serialization. -/
def SecureCookieStore.encode (v : Json) : PyStr := b64enc (bytesOf (jsonEncode v))

/-- `SecureCookieStore._decode`: base64 decoding then JSON parsing; `none`
models a raised decoding error. -/
def SecureCookieStore.decode (s : PyStr) : Option Json :=
  (b64dec s).bind (fun bs => jsonDecode (strOfBytes bs))

/-- `SecureCookieStore.get_signed_value`: payload, timestamp and signature
joined by `|`; `t` is the integer `time.time()` at the moment of signing. -/
def SecureCookieStore.get_signed_value (secret name : PyStr) (v : Json) (t : Nat) : PyStr :=
  joinSep '|'
    [SecureCookieStore.encode v, natDecimal t,
      SecureCookieStore.get_signature secret [name, SecureCookieStore.encode v, natDecimal t]]

/-- `SecureCookieStore.get_cookie`: validates and decodes a signed request
cookie.  `cookies` is the request cookie mapping, `now` the value of
`time.time()`.  The result is `.ok none` for every absorbed failure
(missing or empty cookie, wrong field count, bad signature, expiry, and
payload decoding errors, the last caught by the bare `except`);
`.error .valueError` models the uncaught `int(parts[1])` failure. -/
def SecureCookieStore.get_cookie (secret : PyStr) (cookies : List (PyStr × PyStr))
    (name : PyStr) (max_age : Option Int) (now : Int) : Except PyErr (Option Json) :=
  match dictGet cookies name with
  | none => .ok none
  | some value =>
    if value = [] then .ok none
    else
      match pySplit '|' value with
      | [p0, p1, p2] =>
        if SecureCookieStore.check_signature p2
            (SecureCookieStore.get_signature secret [name, p0, p1]) then
          match max_age with
          | none => .ok (SecureCookieStore.decode p0)
          | some m =>
            match pyInt p1 with
            | none => .error .valueError
            | some ts =>
              if ts < now - m then .ok none else .ok (SecureCookieStore.decode p0)
        else .ok none
      | _ => .ok none

/-- A session dictionary with werkzeug `ModificationTrackingDict` change
tracking: `modified` is set by every mutating operation. -/
structure Session where
  data : List (List Nat × Json)
  modified : Bool

/-- Appending to a JSON array (Python `list.append`). -/
def JArr.push : JArr → Json → JArr
  | .nil, v => .cons v .nil
  | .cons j rest, v => .cons j (JArr.push rest v)

/-- The default flash key `_flash` as code units. -/
def flashDefaultKey : List Nat := (pys "_flash").map Char.toNat

/-- `BaseSession.get_flashes`: an absent key returns an empty list and
leaves the session untouched; otherwise the stored value is popped,
which marks the session modified. -/
def BaseSession.get_flashes (s : Session) (key : List Nat) : Json × Session :=
  match dictGet s.data key with
  | none => (.arr .nil, s)
  | some v => (v, ⟨dictPop s.data key, true⟩)

/-- `BaseSession.add_flash`: `setdefault(key, []).append(value)` — marks
the session modified and appends; appending to a stored non-list raises. -/
def BaseSession.add_flash (s : Session) (value : Json) (key : List Nat) : Except PyErr Session :=
  match dictGet s.data key with
  | none => .ok ⟨dictSet s.data key (.arr (.cons value .nil)), true⟩
  | some (.arr xs) => .ok ⟨dictSet s.data key (.arr (xs.push value)), true⟩
  | some _ => .error .typeError

/-- Cookie options (`max_age`, `domain`, `path`, `secure`, `httponly`),
kept as the Python keyword-argument dictionary they are. -/
abbrev CookieArgs := List (PyStr × Json)

/-- The configured `cookie_args` defaults of `default_config`. -/
def default_cookie_args : CookieArgs :=
  [(pys "max_age", .null), (pys "domain", .null), (pys "path", .str [47]),
    (pys "secure", .null), (pys "httponly", .bool false)]

/-- An outgoing response: the ordered list of `set_cookie` calls made on it. -/
structure Response where
  cookies : List (PyStr × PyStr × CookieArgs)

/-- `Response.set_cookie` as werkzeug provides it. -/
def Response.set_cookie (r : Response) (name value : PyStr) (args : CookieArgs) : Response :=
  ⟨r.cookies ++ [(name, value, args)]⟩

/-- The per-request `SessionStore` state: configuration, the incoming
request cookies, and the tracked sessions keyed by backend then cookie
name. -/
structure SessionStoreState where
  secret_key : PyStr
  cookie_name : PyStr
  default_backend : PyStr
  session_max_age : Option Int
  request_cookies : List (PyStr × PyStr)
  sessions : List (PyStr × List (PyStr × (Session × CookieArgs)))

/-- `SessionStore.get_cookie_args`: the configured defaults updated with
the passed keyword arguments. -/
def SessionStore.get_cookie_args (kwargs : CookieArgs) : CookieArgs :=
  dictUpdate default_cookie_args kwargs

/-- `SessionStore.get_secure_cookie`; `max_age = none` models the
`DEFAULT_VALUE` sentinel, which falls back to the configured
`session_max_age`. -/
def SessionStore.get_secure_cookie (st : SessionStoreState) (name : PyStr)
    (max_age : Option (Option Int)) (now : Int) : Except PyErr (Option Json) :=
  SecureCookieStore.get_cookie st.secret_key st.request_cookies name
    (max_age.getD st.session_max_age) now

/-- `SessionStore.set_secure_cookie`: merges the cookie options, signs the
session dictionary and sets it on the response.  The `assert
isinstance(value, dict)` holds by typing here, since `value` is the
session data. -/
def SessionStore.set_secure_cookie (st : SessionStoreState) (response : Response)
    (name : PyStr) (value : List (List Nat × Json)) (kwargs : CookieArgs) (now : Nat) : Response :=
  Response.set_cookie response name
    (SecureCookieStore.get_signed_value st.secret_key name (.obj (jobjOfList value)) now)
    (SessionStore.get_cookie_args kwargs)

/-- `SecureCookieSession.get_session` (the backend `load`):
`cls(store.get_secure_cookie(name) or ())` — a falsy decode result gives
an empty unmodified session; a truthy mapping hydrates the session.
`dict(x)` for a truthy non-mapping raises (Python would accept an
iterable of pairs; such payloads are collapsed to the raised error here). -/
def SecureCookieSession.load (st : SessionStoreState) (name : PyStr) (now : Int) :
    Except PyErr Session :=
  match SessionStore.get_secure_cookie st name none now with
  | .error e => .error e
  | .ok none => .ok ⟨[], false⟩
  | .ok (some j) =>
    if pyTruthy j then
      match j with
      | .obj o => .ok ⟨jobjToDict o, false⟩
      | _ => .error .typeError
    else .ok ⟨[], false⟩

/-- `SecureCookieSession.save_session`: nothing happens unless the session
was modified; otherwise the session dictionary is signed and set on the
response. -/
def SecureCookieSession.save_session (s : Session) (response : Response)
    (st : SessionStoreState) (name : PyStr) (kwargs : CookieArgs) (now : Nat) : Response :=
  if s.modified then SessionStore.set_secure_cookie st response name s.data kwargs now
  else response

/-- The shape of a backend `load` entry in the `backends` registry. -/
abbrev BackendLoad := SessionStoreState → PyStr → CookieArgs → Int → Except PyErr Session

/-- The secure-cookie backend entry: its classmethod ignores the cookie
options. -/
def SecureCookieSession.loadBackend : BackendLoad :=
  fun st name _ now => SecureCookieSession.load st name now

/-- `SessionStore.default_backends`. -/
def default_backends : List (PyStr × BackendLoad) :=
  [(pys "securecookie", SecureCookieSession.loadBackend)]

/-- Python `value or default` for optional string arguments: `None` and
the empty string both fall back to the default. -/
def orDefault (v : Option PyStr) (dflt : PyStr) : PyStr :=
  match v with
  | none => dflt
  | some s => if s = [] then dflt else s

/-- `SessionStore.get_session`: resolves key and backend, ensures the
per-backend dictionary exists (`setdefault`), returns the cached entry if
present, and otherwise merges the cookie options, loads through the
backend registry (raising `KeyError` for an unknown backend) and caches
the result. -/
def SessionStore.get_session (backends : List (PyStr × BackendLoad))
    (st : SessionStoreState) (key backend : Option PyStr) (kwargs : CookieArgs)
    (now : Int) : Except PyErr (Session × SessionStoreState) :=
  let k := orDefault key st.cookie_name
  let b := orDefault backend st.default_backend
  let inner := (dictGet st.sessions b).getD []
  let st1 : SessionStoreState := { st with sessions := dictSet st.sessions b inner }
  match dictGet inner k with
  | some entry => .ok (entry.1, st1)
  | none =>
    let merged := SessionStore.get_cookie_args kwargs
    match dictGet backends b with
    | none => .error .keyError
    | some load =>
      match load st1 k merged now with
      | .error e => .error e
      | .ok value =>
        .ok (value,
          { st1 with sessions := dictSet st1.sessions b (dictSet inner k (value, merged)) })

/-- `SessionStore.set_session`: merges the cookie options and assigns
`self._sessions[backend][key]` directly — the indexing raises `KeyError`
when no dictionary for that backend exists yet, since unlike
`get_session` it uses no `setdefault`. -/
def SessionStore.set_session (st : SessionStoreState) (key : PyStr) (value : Session)
    (backend : Option PyStr) (kwargs : CookieArgs) : Except PyErr SessionStoreState :=
  let b := orDefault backend st.default_backend
  let merged := SessionStore.get_cookie_args kwargs
  match dictGet st.sessions b with
  | none => .error .keyError
  | some inner =>
    .ok { st with sessions := dictSet st.sessions b (dictSet inner key (value, merged)) }

/-- `SecureCookieMixin.get_secure_cookie`: returns the tracked session via
`SessionStore.get_session` with the `securecookie` backend, not the raw
decoded cookie value. -/
def SecureCookieMixin.get_secure_cookie (st : SessionStoreState) (key : PyStr)
    (kwargs : CookieArgs) (now : Int) : Except PyErr (Session × SessionStoreState) :=
  SessionStore.get_session default_backends st (some key) (some (pys "securecookie")) kwargs now

/-- The wire format as section 6 of the spec spells it: base64 of the
compact JSON of the value, a `|`, the decimal timestamp, a `|`, and the
lowercase hex HMAC-SHA1 digest keyed by the secret over the bytes of
`name`, `|`, the base64 payload, `|` and the timestamp, in that order. -/
def specSignedToken (secret name : PyStr) (v : Json) (t : Nat) : PyStr :=
  b64enc (bytesOf (jsonEncode v)) ++ '|' :: natDecimal t ++ '|' ::
    hexOfBytes (hmacSha1 (bytesOf secret)
      (bytesOf (name ++ '|' :: b64enc (bytesOf (jsonEncode v)) ++ '|' :: natDecimal t)))

/-- The one condition under which `get_cookie` raises: the named cookie
carries a three-field token whose signature verifies but whose timestamp
field is not a valid integer. -/
def badTimestampCookie (secret : PyStr) (cookies : List (PyStr × PyStr)) (name : PyStr) : Bool :=
  match dictGet cookies name with
  | none => false
  | some value =>
    if value = [] then false
    else
      match pySplit '|' value with
      | [p0, p1, p2] =>
        SecureCookieStore.check_signature p2
            (SecureCookieStore.get_signature secret [name, p0, p1]) &&
          (pyInt p1).isNone
      | _ => false

/-- A store state as `SessionStore.__init__` builds it: configuration set,
no tracked sessions, with an empty request. -/
def freshStore : SessionStoreState :=
  ⟨pys "s3cr3t", pys "session", pys "securecookie", none, [], []⟩

/-- The example payload of section 8 of the spec. -/
def demoValue : Json :=
  .obj (.cons ((pys "uid").map Char.toNat) (.num 42) .nil)

theorem char_toNat_inj {a b : Char} (h : a.toNat = b.toNat) : a = b := by
  apply Char.eq_of_val_eq
  exact UInt32.toNat.inj h

theorem char_eq_iff_toNat (a b : Char) : a = b ↔ a.toNat = b.toNat :=
  ⟨fun h => by rw [h], char_toNat_inj⟩

theorem toNat_ofNat_lt {n : Nat} (h : n < 55296) : (Char.ofNat n).toNat = n := by
  simp [Char.ofNat, Nat.isValidChar, h, Char.toNat, Char.ofNatAux, UInt32.toNat,
    BitVec.toNat_ofNatLt]

theorem lor_eq_zero {a b : Nat} : a ||| b = 0 ↔ a = 0 ∧ b = 0 := by
  constructor
  · intro h
    constructor
    · apply Nat.eq_of_testBit_eq
      intro i
      have h2 := congrArg (fun n => n.testBit i) h
      simp [Nat.testBit_or] at h2
      simp [h2.1]
    · apply Nat.eq_of_testBit_eq
      intro i
      have h2 := congrArg (fun n => n.testBit i) h
      simp [Nat.testBit_or] at h2
      simp [h2.2]
  · rintro ⟨rfl, rfl⟩
    rfl

theorem foldOr_eq_zero (l : List (Char × Char)) (acc : Nat) :
    (l.foldl (fun r p => r ||| (p.1.toNat ^^^ p.2.toNat)) acc = 0) ↔
      (acc = 0 ∧ ∀ p ∈ l, p.1 = p.2) := by
  induction l generalizing acc with
  | nil => simp
  | cons hd t ih =>
    simp only [List.foldl_cons, ih, lor_eq_zero, Nat.xor_eq_zero, List.mem_cons]
    constructor
    · rintro ⟨⟨h1, h2⟩, h3⟩
      refine ⟨h1, ?_⟩
      rintro p (rfl | hp)
      · exact char_toNat_inj h2
      · exact h3 p hp
    · rintro ⟨h1, h2⟩
      refine ⟨⟨h1, ?_⟩, fun p hp => h2 p (Or.inr hp)⟩
      rw [h2 hd (Or.inl rfl)]

theorem eq_of_zip_eq : ∀ (a b : PyStr), a.length = b.length →
    (∀ p ∈ a.zip b, p.1 = p.2) → a = b
  | [], [], _, _ => rfl
  | [], _ :: _, h, _ => by simp at h
  | _ :: _, [], h, _ => by simp at h
  | x :: a, y :: b, h, hp => by
    have hx : x = y := hp (x, y) (by simp [List.zip])
    have ht : a = b := by
      apply eq_of_zip_eq a b (by simpa using h)
      intro p hmem
      exact hp p (by simp [List.zip] at hmem ⊢; right; exact hmem)
    rw [hx, ht]

theorem mem_zip_self : ∀ (a : PyStr) (p : Char × Char), p ∈ a.zip a → p.1 = p.2
  | [], _, hp => by simp [List.zip] at hp
  | c :: r, p, hp => by
    rw [List.zip_cons_cons, List.mem_cons] at hp
    rcases hp with h | h
    · rw [h]
    · exact mem_zip_self r p h

/-- The constant-time comparison returns true exactly on equal strings. -/
theorem check_signature_iff (a b : PyStr) :
    SecureCookieStore.check_signature a b = true ↔ a = b := by
  unfold SecureCookieStore.check_signature
  by_cases h : a.length = b.length
  · rw [if_neg (by simp [h]), beq_iff_eq, foldOr_eq_zero]
    constructor
    · intro hp
      exact eq_of_zip_eq a b h hp.2
    · intro hab
      subst hab
      exact ⟨rfl, mem_zip_self a⟩
  · rw [if_pos (by simp [h])]
    constructor
    · intro hfalse
      exact absurd hfalse (by simp)
    · intro hab
      exact absurd (congrArg List.length hab) h

theorem pySplit_no_sep (sep : Char) : ∀ (x : PyStr), sep ∉ x → pySplit sep x = [x]
  | [], _ => rfl
  | c :: r, h => by
    have hc : c ≠ sep := fun hcs => h (by simp [hcs])
    have hr := pySplit_no_sep sep r (fun hm => h (by simp [hm]))
    simp [pySplit, hr, hc]

theorem pySplit_append_sep (sep : Char) : ∀ (x r : PyStr), sep ∉ x →
    pySplit sep (x ++ sep :: r) = x :: pySplit sep r
  | [], r, _ => by
    cases hr : pySplit sep r with
    | nil => simp [pySplit, hr]
    | cons p ps => simp [pySplit, hr]
  | c :: x, r, h => by
    have hc : c ≠ sep := fun hcs => h (by simp [hcs])
    have hx := pySplit_append_sep sep x r (fun hm => h (by simp [hm]))
    simp [pySplit, hx, hc]

theorem pySplit_three (sep : Char) (a b c : PyStr)
    (ha : sep ∉ a) (hb : sep ∉ b) (hc : sep ∉ c) :
    pySplit sep (a ++ sep :: b ++ sep :: c) = [a, b, c] := by
  rw [show a ++ sep :: b ++ sep :: c = a ++ sep :: (b ++ sep :: c) by simp]
  rw [pySplit_append_sep sep a (b ++ sep :: c) ha]
  rw [pySplit_append_sep sep b c hb]
  rw [pySplit_no_sep sep c hc]

theorem joinSep_three (sep : Char) (a b c : PyStr) :
    joinSep sep [a, b, c] = a ++ sep :: b ++ sep :: c := by
  simp [joinSep]

theorem not_mem_of_all {p : Char → Bool} {l : PyStr} {x : Char}
    (hl : l.all p = true) (hx : p x = false) : x ∉ l := by
  intro hmem
  rw [List.all_eq_true] at hl
  rw [hl x hmem] at hx
  cases hx

theorem isDigitCh_digitCh : ∀ d < 10, isDigitCh (digitCh d) = true := by decide

theorem digitVal_digitCh : ∀ d < 10, digitVal (digitCh d) = d := by decide

theorem natDecAux_ne_nil : ∀ (fuel n : Nat), n < fuel → natDecAux fuel n ≠ []
  | fuel + 1, n, _ => by
    by_cases h : n < 10
    · simp [natDecAux, h]
    · simp [natDecAux, h]

theorem natDecAux_all_digits : ∀ (fuel n : Nat), n < fuel →
    (natDecAux fuel n).all isDigitCh = true
  | fuel + 1, n, hlt => by
    by_cases h : n < 10
    · simp [natDecAux, h, isDigitCh_digitCh n h]
    · have hd : n / 10 < fuel := by
        have := Nat.div_lt_self (Nat.lt_of_lt_of_le (by norm_num) (Nat.le_of_not_lt h))
          (by norm_num : (1 : Nat) < 10)
        omega
      have ih := natDecAux_all_digits fuel (n / 10) hd
      simp [natDecAux, h, List.all_append, ih, isDigitCh_digitCh (n % 10) (Nat.mod_lt n (by norm_num))]

theorem digitsVal_append_digit (s : PyStr) (c : Char) :
    digitsVal (s ++ [c]) = digitsVal s * 10 + digitVal c := by
  simp [digitsVal, List.foldl_append]

theorem digitsVal_natDecAux : ∀ (fuel n : Nat), n < fuel →
    digitsVal (natDecAux fuel n) = n
  | fuel + 1, n, hlt => by
    by_cases h : n < 10
    · simp [natDecAux, h, digitsVal, digitVal_digitCh n h]
    · have hd : n / 10 < fuel := by
        have := Nat.div_lt_self (Nat.lt_of_lt_of_le (by norm_num) (Nat.le_of_not_lt h))
          (by norm_num : (1 : Nat) < 10)
        omega
      have ih := digitsVal_natDecAux fuel (n / 10) hd
      rw [natDecAux, if_neg h, digitsVal_append_digit, ih,
        digitVal_digitCh (n % 10) (Nat.mod_lt n (by norm_num))]
      omega

theorem natDecimal_ne_nil (n : Nat) : natDecimal n ≠ [] :=
  natDecAux_ne_nil (n + 1) n (Nat.lt_succ_self n)

theorem natDecimal_all_digits (n : Nat) : (natDecimal n).all isDigitCh = true :=
  natDecAux_all_digits (n + 1) n (Nat.lt_succ_self n)

theorem digitsVal_natDecimal (n : Nat) : digitsVal (natDecimal n) = n :=
  digitsVal_natDecAux (n + 1) n (Nat.lt_succ_self n)

theorem not_space_of_digit {c : Char} (hc : isDigitCh c = true) : isSpaceCh c = false := by
  unfold isDigitCh at hc
  unfold isSpaceCh
  simp only [Bool.and_eq_true, decide_eq_true_eq] at hc
  simp only [Bool.or_eq_false_iff, decide_eq_false_iff_not]
  omega

theorem dropWhile_head_false {p : Char → Bool} {c : Char} (r : PyStr) (h : p c = false) :
    (c :: r).dropWhile p = c :: r := by
  simp [List.dropWhile, h]

theorem all_digits_strip {s : PyStr} (hne : s ≠ []) (hall : s.all isDigitCh = true) :
    ((s.dropWhile isSpaceCh).reverse.dropWhile isSpaceCh).reverse = s := by
  have h1 : s.dropWhile isSpaceCh = s := by
    rcases s with _ | ⟨c, ds⟩
    · rfl
    · have hc : isDigitCh c = true := by
        rw [List.all_eq_true] at hall
        exact hall c (by simp)
      exact dropWhile_head_false ds (not_space_of_digit hc)
  have h2 : s.reverse.dropWhile isSpaceCh = s.reverse := by
    rcases hrev : s.reverse with _ | ⟨d, t⟩
    · rfl
    · have hd : isDigitCh d = true := by
        rw [List.all_eq_true] at hall
        refine hall d ?_
        apply List.mem_reverse.mp
        rw [hrev]
        simp
      exact dropWhile_head_false t (not_space_of_digit hd)
  rw [h1, h2, List.reverse_reverse]

/-- Python `int()` inverts the decimal printer. -/
theorem pyInt_natDecimal (n : Nat) : pyInt (natDecimal n) = some (n : Int) := by
  have hne := natDecimal_ne_nil n
  have hall := natDecimal_all_digits n
  have hstrip := all_digits_strip hne hall
  rcases hs : natDecimal n with _ | ⟨c, ds⟩
  · exact absurd hs hne
  · rw [hs] at hstrip hall
    have hc : isDigitCh c = true := by
      rw [List.all_eq_true] at hall
      exact hall c (by simp)
    have hcm : c ≠ '-' := by rintro rfl; simp [isDigitCh] at hc
    have hcp : c ≠ '+' := by rintro rfl; simp [isDigitCh] at hc
    unfold pyInt
    rw [hstrip]
    dsimp only
    rw [if_neg hcm, if_neg hcp, if_pos hall]
    have := digitsVal_natDecimal n
    rw [hs] at this
    rw [this]

theorem hexDigitCh_le (d : Nat) : (hexDigitCh d).toNat ≤ 126 := by
  by_cases h : d < 16
  · revert h
    revert d
    decide
  · unfold hexDigitCh
    rw [List.getD_eq_default]
    · decide
    · simp only [String.data]
      norm_num
      omega

theorem isHexCh_hexDigitCh : ∀ d < 16, isHexCh (hexDigitCh d) = true := by decide

theorem hexVal_hexDigitCh : ∀ d < 16, hexVal (hexDigitCh d) = d := by decide

theorem hexOfBytes_all_hex : ∀ (bs : List Nat), (hexOfBytes bs).all isHexCh = true
  | [] => rfl
  | b :: bs => by
    have ih := hexOfBytes_all_hex bs
    simp [hexOfBytes, hexByte, List.all_append, ih,
      isHexCh_hexDigitCh (b / 16 % 16) (Nat.mod_lt _ (by norm_num)),
      isHexCh_hexDigitCh (b % 16) (Nat.mod_lt _ (by norm_num))]

theorem pipe_not_hex : isHexCh '|' = false := by decide

theorem pipe_not_digit : isDigitCh '|' = false := by decide

theorem b64digit_ne_pipe (d : Nat) : b64digit d ≠ '|' := by
  by_cases h : d < 64
  · revert h
    revert d
    decide
  · unfold b64digit
    rw [List.getD_eq_default]
    · decide
    · simp only [String.data]
      norm_num
      omega

theorem b64digit_ne_eq (d : Nat) : b64digit d ≠ '=' := by
  by_cases h : d < 64
  · revert h
    revert d
    decide
  · unfold b64digit
    rw [List.getD_eq_default]
    · decide
    · simp only [String.data]
      norm_num
      omega

theorem pipe_not_mem_b64enc : ∀ (bs : List Nat), '|' ∉ b64enc bs
  | [] => by simp [b64enc]
  | [a] => by
    intro hmem
    simp [b64enc] at hmem
    rcases hmem with h | h
    · exact b64digit_ne_pipe _ h.symm
    · exact b64digit_ne_pipe _ h.symm
  | [a, b] => by
    intro hmem
    simp [b64enc] at hmem
    rcases hmem with h | h | h
    · exact b64digit_ne_pipe _ h.symm
    · exact b64digit_ne_pipe _ h.symm
    · exact b64digit_ne_pipe _ h.symm
  | a :: b :: c :: rest => by
    intro hmem
    have ih := pipe_not_mem_b64enc rest
    simp [b64enc] at hmem
    rcases hmem with h | h | h | h | h
    · exact b64digit_ne_pipe _ h.symm
    · exact b64digit_ne_pipe _ h.symm
    · exact b64digit_ne_pipe _ h.symm
    · exact b64digit_ne_pipe _ h.symm
    · exact ih h

theorem b64index_b64digit : ∀ d < 64, b64index (b64digit d) = some d := by decide

theorem b64dec_b64enc : ∀ (bs : List Nat), (∀ x ∈ bs, x < 256) →
    b64dec (b64enc bs) = some bs
  | [], _ => rfl
  | [a], h => by
    have ha : a < 256 := h a (by simp)
    rw [show b64enc [a] = [b64digit (a / 4), b64digit (a % 4 * 16), '=', '='] from rfl]
    rw [b64dec]
    rw [if_pos rfl, if_pos ⟨rfl, rfl⟩]
    rw [b64index_b64digit (a / 4) (by omega), b64index_b64digit (a % 4 * 16) (by omega)]
    dsimp only
    simp only [Option.some.injEq, List.cons.injEq, and_true]
    omega
  | [a, b], h => by
    have ha : a < 256 := h a (by simp)
    have hb : b < 256 := h b (by simp)
    rw [show b64enc [a, b] =
      [b64digit (a / 4), b64digit (a % 4 * 16 + b / 16), b64digit (b % 16 * 4), '='] from rfl]
    rw [b64dec]
    rw [if_neg (b64digit_ne_eq _), if_pos rfl, if_pos rfl]
    rw [b64index_b64digit (a / 4) (by omega), b64index_b64digit (a % 4 * 16 + b / 16) (by omega),
      b64index_b64digit (b % 16 * 4) (by omega)]
    dsimp only
    simp only [Option.some.injEq, List.cons.injEq, and_true]
    omega
  | a :: b :: c :: rest, h => by
    have ha : a < 256 := h a (by simp)
    have hb : b < 256 := h b (by simp)
    have hc : c < 256 := h c (by simp)
    have ih := b64dec_b64enc rest (fun x hx => h x (by simp [hx]))
    rw [show b64enc (a :: b :: c :: rest) =
      b64digit (a / 4) :: b64digit (a % 4 * 16 + b / 16) ::
        b64digit (b % 16 * 4 + c / 64) :: b64digit (c % 64) :: b64enc rest from rfl]
    rw [b64dec]
    rw [if_neg (b64digit_ne_eq _), if_neg (b64digit_ne_eq _)]
    rw [b64index_b64digit (a / 4) (by omega),
      b64index_b64digit (a % 4 * 16 + b / 16) (by omega),
      b64index_b64digit (b % 16 * 4 + c / 64) (by omega),
      b64index_b64digit (c % 64) (by omega), ih]
    dsimp only
    simp only [Option.some.injEq, List.cons.injEq, and_true]
    omega

theorem strOfBytes_bytesOf : ∀ (s : PyStr), strOfBytes (bytesOf s) = s
  | [] => rfl
  | c :: r => by
    have ih := strOfBytes_bytesOf r
    simp only [strOfBytes, bytesOf, List.map_cons, Char.ofNat_toNat] at ih ⊢
    rw [ih]


theorem digit_le {c : Char} (h : isDigitCh c = true) : c.toNat ≤ 126 := by
  simp [isDigitCh] at h
  omega

theorem ofNat_eq_iff {u : Nat} (hu : u < 55296) (c : Char) :
    Char.ofNat u = c ↔ u = c.toNat := by
  rw [char_eq_iff_toNat, toNat_ofNat_lt hu]

theorem encUnit_le (u : Nat) : ∀ c ∈ encUnit u, c.toNat ≤ 126 := by
  intro c hc
  unfold encUnit at hc
  by_cases h34 : u = 34
  · rw [if_pos h34] at hc
    simp only [List.mem_cons, List.not_mem_nil, or_false] at hc
    rcases hc with rfl | rfl <;> decide
  · rw [if_neg h34] at hc
    by_cases h92 : u = 92
    · rw [if_pos h92] at hc
      simp only [List.mem_cons, List.not_mem_nil, or_false] at hc
      rcases hc with rfl | rfl <;> decide
    · rw [if_neg h92] at hc
      by_cases hpr : 32 ≤ u ∧ u ≤ 126
      · rw [if_pos hpr] at hc
        simp only [List.mem_cons, List.not_mem_nil, or_false] at hc
        subst hc
        rw [toNat_ofNat_lt (by omega)]
        omega
      · rw [if_neg hpr] at hc
        simp only [List.mem_cons, List.not_mem_nil, or_false] at hc
        rcases hc with rfl | rfl | rfl | rfl | rfl | rfl
        · decide
        · decide
        · exact hexDigitCh_le _
        · exact hexDigitCh_le _
        · exact hexDigitCh_le _
        · exact hexDigitCh_le _

theorem encUnits_le : ∀ (s : List Nat), ∀ c ∈ encUnits s, c.toNat ≤ 126
  | [], c, hc => by simp [encUnits] at hc
  | u :: us, c, hc => by
    rw [encUnits] at hc
    rcases List.mem_append.mp hc with h | h
    · exact encUnit_le u c h
    · exact encUnits_le us c h

theorem natDecimal_le (n : Nat) : ∀ c ∈ natDecimal n, c.toNat ≤ 126 := by
  intro c hc
  have hall := natDecimal_all_digits n
  rw [List.all_eq_true] at hall
  exact digit_le (hall c hc)

theorem intDecimal_le (i : Int) : ∀ c ∈ intDecimal i, c.toNat ≤ 126 := by
  intro c hc
  unfold intDecimal at hc
  split at hc
  · rcases List.mem_cons.mp hc with rfl | h
    · decide
    · exact natDecimal_le _ c h
  · exact natDecimal_le _ c hc

mutual
theorem jsonEncode_le : ∀ (j : Json), ∀ c ∈ jsonEncode j, c.toNat ≤ 126
  | .null, c, hc => by
    simp only [jsonEncode, List.mem_cons, List.not_mem_nil, or_false] at hc
    rcases hc with rfl | rfl | rfl | rfl <;> decide
  | .bool true, c, hc => by
    simp only [jsonEncode, List.mem_cons, List.not_mem_nil, or_false] at hc
    rcases hc with rfl | rfl | rfl | rfl <;> decide
  | .bool false, c, hc => by
    simp only [jsonEncode, List.mem_cons, List.not_mem_nil, or_false] at hc
    rcases hc with rfl | rfl | rfl | rfl | rfl <;> decide
  | .num i, c, hc => intDecimal_le i c hc
  | .str s, c, hc => by
    rw [jsonEncode] at hc
    rcases List.mem_cons.mp hc with rfl | h
    · decide
    · rcases List.mem_append.mp h with h2 | h2
      · exact encUnits_le s c h2
      · simp only [List.mem_cons, List.not_mem_nil, or_false] at h2
        subst h2
        decide
  | .arr .nil, c, hc => by
    simp only [jsonEncode, List.mem_cons, List.not_mem_nil, or_false] at hc
    rcases hc with rfl | rfl <;> decide
  | .arr (.cons j rest), c, hc => by
    rw [jsonEncode] at hc
    rcases List.mem_cons.mp hc with rfl | h
    · decide
    · rcases List.mem_append.mp h with h2 | h2
      · rcases List.mem_append.mp h2 with h3 | h3
        · exact jsonEncode_le j c h3
        · exact encArr_le rest c h3
      · simp only [List.mem_cons, List.not_mem_nil, or_false] at h2
        subst h2
        decide
  | .obj .nil, c, hc => by
    simp only [jsonEncode, List.mem_cons, List.not_mem_nil, or_false] at hc
    rcases hc with rfl | rfl <;> decide
  | .obj (.cons k v rest), c, hc => by
    rw [jsonEncode] at hc
    rcases List.mem_cons.mp hc with rfl | h
    · decide
    · simp only [List.append_eq] at h
      rw [List.append_assoc, List.append_assoc] at h
      rcases List.mem_append.mp h with h2 | h2
      · rcases List.mem_cons.mp h2 with rfl | h3
        · decide
        · rcases List.mem_append.mp h3 with h4 | h4
          · exact encUnits_le k c h4
          · simp only [List.mem_cons, List.not_mem_nil, or_false] at h4
            rcases h4 with rfl | rfl <;> decide
      · rcases List.mem_append.mp h2 with h3 | h3
        · exact jsonEncode_le v c h3
        · rcases List.mem_append.mp h3 with h4 | h4
          · exact encObj_le rest c h4
          · simp only [List.mem_cons, List.not_mem_nil, or_false] at h4
            subst h4
            decide
theorem encArr_le : ∀ (a : JArr), ∀ c ∈ encArr a, c.toNat ≤ 126
  | .nil, c, hc => by cases hc
  | .cons j rest, c, hc => by
    rw [encArr] at hc
    rcases List.mem_cons.mp hc with rfl | h
    · decide
    · rcases List.mem_append.mp h with h2 | h2
      · exact jsonEncode_le j c h2
      · exact encArr_le rest c h2
theorem encObj_le : ∀ (o : JObj), ∀ c ∈ encObj o, c.toNat ≤ 126
  | .nil, c, hc => by cases hc
  | .cons k v rest, c, hc => by
    rw [encObj] at hc
    rcases List.mem_cons.mp hc with rfl | h
    · decide
    · simp only [List.append_eq] at h
      rw [List.append_assoc] at h
      rcases List.mem_append.mp h with h2 | h2
      · rcases List.mem_cons.mp h2 with rfl | h3
        · decide
        · rcases List.mem_append.mp h3 with h4 | h4
          · exact encUnits_le k c h4
          · simp only [List.mem_cons, List.not_mem_nil, or_false] at h4
            rcases h4 with rfl | rfl <;> decide
      · rcases List.mem_append.mp h2 with h3 | h3
        · exact jsonEncode_le v c h3
        · exact encObj_le rest c h3
end

theorem pStringUnits_enc : ∀ (s : List Nat), s.all (fun u => u < 65536) = true →
    ∀ (rest : PyStr), pStringUnits (encUnits s ++ '"' :: rest) = some (s, rest)
  | [], _, rest => by
    simp only [encUnits, List.nil_append]
    rw [pStringUnits.eq_def]
    dsimp only
    rw [if_pos rfl]
  | u :: us, hall, rest => by
    have hu : u < 65536 := by
      rw [List.all_eq_true] at hall
      simpa using hall u (by simp)
    have htail : us.all (fun x => x < 65536) = true := by
      rw [List.all_eq_true] at hall ⊢
      intro x hx
      exact hall x (by simp [hx])
    have ih := pStringUnits_enc us htail rest
    rw [encUnits, List.append_assoc]
    unfold encUnit
    by_cases h34 : u = 34
    · subst h34
      rw [if_pos rfl]
      simp only [List.cons_append, List.nil_append]
      rw [pStringUnits.eq_def]
      dsimp only
      rw [if_neg (by decide), if_pos rfl]
      rw [if_pos rfl, ih]
      rfl
    · rw [if_neg h34]
      by_cases h92 : u = 92
      · subst h92
        rw [if_pos rfl]
        simp only [List.cons_append, List.nil_append]
        rw [pStringUnits.eq_def]
        dsimp only
        rw [if_neg (by decide), if_pos rfl]
        rw [if_neg (by decide), if_pos rfl, ih]
        rfl
      · rw [if_neg h92]
        by_cases hpr : 32 ≤ u ∧ u ≤ 126
        · rw [if_pos hpr]
          simp only [List.cons_append, List.nil_append]
          have hq : Char.ofNat u ≠ '"' := by
            intro heq
            rw [ofNat_eq_iff (by omega)] at heq
            rw [show ('"').toNat = 34 from rfl] at heq
            exact h34 heq
          have hb : Char.ofNat u ≠ '\\' := by
            intro heq
            rw [ofNat_eq_iff (by omega)] at heq
            rw [show ('\\').toNat = 92 from rfl] at heq
            exact h92 heq
          rw [pStringUnits.eq_def]
          dsimp only
          rw [if_neg hq, if_neg hb, ih]
          have h55 : u < 55296 := by omega
          simp [toNat_ofNat_lt h55]
        · rw [if_neg hpr]
          simp only [List.cons_append, List.nil_append]
          rw [pStringUnits.eq_def]
          dsimp only
          rw [if_neg (by decide), if_pos rfl]
          rw [if_neg (by decide), if_neg (by decide), if_neg (by decide), if_neg (by decide),
            if_neg (by decide), if_neg (by decide), if_neg (by decide), if_neg (by decide),
            if_pos rfl]
          rw [if_pos (by
            rw [isHexCh_hexDigitCh (u / 4096 % 16) (by omega),
              isHexCh_hexDigitCh (u / 256 % 16) (by omega),
              isHexCh_hexDigitCh (u / 16 % 16) (by omega),
              isHexCh_hexDigitCh (u % 16) (by omega)]
            rfl)]
          rw [ih]
          have e1 := hexVal_hexDigitCh (u / 4096 % 16) (by omega)
          have e2 := hexVal_hexDigitCh (u / 256 % 16) (by omega)
          have e3 := hexVal_hexDigitCh (u / 16 % 16) (by omega)
          have e4 := hexVal_hexDigitCh (u % 16) (by omega)
          simp only [Option.map_some', Option.some.injEq, Prod.mk.injEq, List.cons.injEq,
            e1, e2, e3, e4, and_true]
          omega

theorem pDigits_append : ∀ (ds rest : PyStr), ds.all isDigitCh = true →
    numStop rest = true → pDigits (ds ++ rest) = (ds, rest)
  | [], rest, _, hrest => by
    cases rest with
    | nil => rfl
    | cons c r =>
      have hc : isDigitCh c = false := by
        rw [numStop] at hrest
        simpa using hrest
      simp [pDigits, hc]
  | c :: t, rest, hall, hrest => by
    have hc : isDigitCh c = true := by
      rw [List.all_eq_true] at hall
      exact hall c (by simp)
    have ht : t.all isDigitCh = true := by
      rw [List.all_eq_true] at hall ⊢
      intro x hx
      exact hall x (by simp [hx])
    have ih := pDigits_append t rest ht hrest
    simp [pDigits, hc, ih]

theorem natDecimal_head_digit (n : Nat) :
    ∃ c t, natDecimal n = c :: t ∧ isDigitCh c = true := by
  rcases h : natDecimal n with _ | ⟨c, t⟩
  · exact absurd h (natDecimal_ne_nil n)
  · refine ⟨c, t, rfl, ?_⟩
    have hall := natDecimal_all_digits n
    rw [h, List.all_eq_true] at hall
    exact hall c (by simp)

theorem pNum_natDecimal (n : Nat) (rest : PyStr) (hrest : numStop rest = true) :
    pNum (natDecimal n ++ rest) = some (.num (n : Int), rest) := by
  obtain ⟨c, t, hct, hc⟩ := natDecimal_head_digit n
  have hdm : c ≠ '-' := by
    rintro rfl
    simp [isDigitCh] at hc
  have hpd : pDigits (c :: (t ++ rest)) = (c :: t, rest) := by
    have h2 := pDigits_append (c :: t) rest (by rw [← hct]; exact natDecimal_all_digits n) hrest
    simpa using h2
  rw [hct]
  simp only [List.cons_append]
  rw [pNum, if_neg hdm, hpd]
  dsimp only
  rw [if_neg (by simp)]
  have hdv : digitsVal (c :: t) = n := by
    rw [← hct]
    exact digitsVal_natDecimal n
  rw [hdv]

theorem pNum_intDecimal (i : Int) (rest : PyStr) (hrest : numStop rest = true) :
    pNum (intDecimal i ++ rest) = some (.num i, rest) := by
  unfold intDecimal
  by_cases hneg : i < 0
  · rw [if_pos hneg]
    simp only [List.cons_append]
    rw [pNum, if_pos rfl]
    have hpd : pDigits (natDecimal i.natAbs ++ rest) = (natDecimal i.natAbs, rest) :=
      pDigits_append _ rest (natDecimal_all_digits _) hrest
    rw [hpd]
    dsimp only
    rw [if_neg (natDecimal_ne_nil _), digitsVal_natDecimal]
    have : -(i.natAbs : Int) = i := by omega
    rw [this]
  · rw [if_neg hneg]
    rw [pNum_natDecimal i.natAbs rest hrest]
    have : (i.natAbs : Int) = i := by omega
    rw [this]

theorem intDecimal_head (i : Int) :
    ∃ c t, intDecimal i = c :: t ∧ (isDigitCh c = true ∨ c = '-') := by
  unfold intDecimal
  by_cases hneg : i < 0
  · rw [if_pos hneg]
    exact ⟨'-', natDecimal i.natAbs, rfl, Or.inr rfl⟩
  · rw [if_neg hneg]
    obtain ⟨c, t, hct, hc⟩ := natDecimal_head_digit i.natAbs
    exact ⟨c, t, hct, Or.inl hc⟩

theorem pVal_num_head (fuel : Nat) (c : Char) (r : PyStr)
    (h : isDigitCh c = true ∨ c = '-') :
    pVal (fuel + 1) (c :: r) = pNum (c :: r) := by
  have hn : c ≠ 'n' := by
    rcases h with h | rfl
    · rintro rfl; simp [isDigitCh] at h
    · decide
  have ht : c ≠ 't' := by
    rcases h with h | rfl
    · rintro rfl; simp [isDigitCh] at h
    · decide
  have hf : c ≠ 'f' := by
    rcases h with h | rfl
    · rintro rfl; simp [isDigitCh] at h
    · decide
  have hq : c ≠ '"' := by
    rcases h with h | rfl
    · rintro rfl; simp [isDigitCh] at h
    · decide
  have hbk : c ≠ '[' := by
    rcases h with h | rfl
    · rintro rfl; simp [isDigitCh] at h
    · decide
  have hlb : c ≠ lbrace := by
    rcases h with h | rfl
    · rintro rfl; simp [isDigitCh, lbrace] at h
    · decide
  rw [pVal.eq_def]
  dsimp only
  rw [if_neg hn, if_neg ht, if_neg hf, if_neg hq, if_neg hbk, if_neg hlb]

theorem jsonEncode_head : ∀ (j : Json), ∃ c t, jsonEncode j = c :: t ∧ c ≠ ']'
  | .null => ⟨'n', ['u', 'l', 'l'], rfl, by decide⟩
  | .bool true => ⟨'t', ['r', 'u', 'e'], rfl, by decide⟩
  | .bool false => ⟨'f', ['a', 'l', 's', 'e'], rfl, by decide⟩
  | .num i => by
    obtain ⟨c, t, hct, hc⟩ := intDecimal_head i
    refine ⟨c, t, hct, ?_⟩
    rcases hc with h | rfl
    · rintro rfl; simp [isDigitCh] at h
    · decide
  | .str s => ⟨'"', encUnits s ++ ['"'], rfl, by decide⟩
  | .arr .nil => ⟨'[', [']'], rfl, by decide⟩
  | .arr (.cons j rest) =>
    ⟨'[', jsonEncode j ++ encArr rest ++ [']'], rfl, by decide⟩
  | .obj .nil => ⟨lbrace, [rbrace], rfl, by decide⟩
  | .obj (.cons k v rest) =>
    ⟨lbrace, ('"' :: encUnits k ++ ['"', ':']) ++ jsonEncode v ++ encObj rest ++ [rbrace],
      rfl, by decide⟩

theorem fuelJ_pos : ∀ (j : Json), 1 ≤ fuelJ j
  | .null => by simp [fuelJ]
  | .bool _ => by simp [fuelJ]
  | .num _ => by simp [fuelJ]
  | .str _ => by simp [fuelJ]
  | .arr a => by rw [fuelJ]; omega
  | .obj o => by rw [fuelJ]; omega

theorem fuelElems_pos : ∀ (a : JArr), 1 ≤ fuelElems a
  | .nil => by simp [fuelElems]
  | .cons j rest => by rw [fuelElems]; omega

theorem fuelMembers_pos : ∀ (o : JObj), 1 ≤ fuelMembers o
  | .nil => by simp [fuelMembers]
  | .cons k v rest => by rw [fuelMembers]; omega

theorem numStop_encArr (a : JArr) (rest : PyStr) :
    numStop (encArr a ++ ']' :: rest) = true := by
  cases a with
  | nil =>
    rw [encArr, List.nil_append, numStop]
    decide
  | cons j a2 =>
    rw [encArr]
    simp only [List.cons_append]
    rw [numStop]
    decide

theorem numStop_encObj (o : JObj) (rest : PyStr) :
    numStop (encObj o ++ rbrace :: rest) = true := by
  cases o with
  | nil =>
    rw [encObj, List.nil_append, numStop]
    decide
  | cons k v o2 =>
    rw [encObj]
    simp only [List.cons_append]
    rw [numStop]
    decide

mutual
theorem pVal_enc : ∀ (j : Json), Json.wf j = true → ∀ (fuel : Nat) (rest : PyStr),
    fuelJ j ≤ fuel → numStop rest = true →
    pVal fuel (jsonEncode j ++ rest) = some (j, rest)
  | .null, _, fuel, rest, hfuel, _ => by
    rw [fuelJ] at hfuel
    obtain ⟨f, rfl⟩ : ∃ f, fuel = f + 1 := ⟨fuel - 1, by omega⟩
    rw [jsonEncode]
    simp only [List.cons_append, List.nil_append]
    rw [pVal.eq_def]
    dsimp only
    rw [if_pos rfl]
    rw [if_pos ⟨rfl, rfl, rfl⟩]
  | .bool true, _, fuel, rest, hfuel, _ => by
    rw [fuelJ] at hfuel
    obtain ⟨f, rfl⟩ : ∃ f, fuel = f + 1 := ⟨fuel - 1, by omega⟩
    rw [jsonEncode]
    simp only [List.cons_append, List.nil_append]
    rw [pVal.eq_def]
    dsimp only
    rw [if_neg (by decide), if_pos rfl]
    rw [if_pos ⟨rfl, rfl, rfl⟩]
  | .bool false, _, fuel, rest, hfuel, _ => by
    rw [fuelJ] at hfuel
    obtain ⟨f, rfl⟩ : ∃ f, fuel = f + 1 := ⟨fuel - 1, by omega⟩
    rw [jsonEncode]
    simp only [List.cons_append, List.nil_append]
    rw [pVal.eq_def]
    dsimp only
    rw [if_neg (by decide), if_neg (by decide), if_pos rfl]
    rw [if_pos ⟨rfl, rfl, rfl, rfl⟩]
  | .num i, _, fuel, rest, hfuel, hstop => by
    rw [fuelJ] at hfuel
    obtain ⟨f, rfl⟩ : ∃ f, fuel = f + 1 := ⟨fuel - 1, by omega⟩
    rw [jsonEncode]
    obtain ⟨c, t, hct, hc⟩ := intDecimal_head i
    rw [hct]
    simp only [List.cons_append]
    rw [pVal_num_head f c (t ++ rest) hc]
    rw [← List.cons_append, ← hct]
    exact pNum_intDecimal i rest hstop
  | .str s, hwf, fuel, rest, hfuel, _ => by
    rw [Json.wf] at hwf
    rw [fuelJ] at hfuel
    obtain ⟨f, rfl⟩ : ∃ f, fuel = f + 1 := ⟨fuel - 1, by omega⟩
    rw [jsonEncode]
    simp only [List.cons_append, List.append_assoc, List.singleton_append, List.nil_append]
    rw [pVal.eq_def]
    dsimp only
    rw [if_neg (by decide), if_neg (by decide), if_neg (by decide), if_pos rfl]
    rw [pStringUnits_enc s hwf rest]
    rfl
  | .arr .nil, _, fuel, rest, hfuel, _ => by
    rw [fuelJ, fuelArr] at hfuel
    obtain ⟨f, rfl⟩ : ∃ f, fuel = f + 2 := ⟨fuel - 2, by omega⟩
    rw [jsonEncode]
    simp only [List.cons_append, List.nil_append]
    rw [pVal.eq_def]
    dsimp only
    rw [if_neg (by decide), if_neg (by decide), if_neg (by decide), if_neg (by decide),
      if_pos rfl]
    rw [pArr.eq_def]
    dsimp only
    rw [if_pos rfl]
    rfl
  | .arr (.cons j a), hwf, fuel, rest, hfuel, _ => by
    rw [Json.wf, JArr.wf] at hwf
    obtain ⟨hwfj, hwfa⟩ := Bool.and_eq_true_iff.mp hwf
    rw [fuelJ, fuelArr] at hfuel
    obtain ⟨f, rfl⟩ : ∃ f, fuel = f + 2 := ⟨fuel - 2, by omega⟩
    rw [jsonEncode]
    simp only [List.cons_append, List.append_assoc, List.singleton_append, List.nil_append]
    rw [pVal.eq_def]
    dsimp only
    rw [if_neg (by decide), if_neg (by decide), if_neg (by decide), if_neg (by decide),
      if_pos rfl]
    obtain ⟨c, t, hct, hcne⟩ := jsonEncode_head j
    rw [hct, List.cons_append, pArr.eq_def]
    dsimp only
    rw [if_neg hcne, ← List.cons_append, ← hct]
    rw [pElems_enc j a hwfj hwfa f rest (by omega)]
    rfl
  | .obj .nil, _, fuel, rest, hfuel, _ => by
    rw [fuelJ, fuelObjTop] at hfuel
    obtain ⟨f, rfl⟩ : ∃ f, fuel = f + 2 := ⟨fuel - 2, by omega⟩
    rw [jsonEncode]
    simp only [List.cons_append, List.nil_append]
    rw [pVal.eq_def]
    dsimp only
    rw [if_neg (by decide), if_neg (by decide), if_neg (by decide), if_neg (by decide),
      if_neg (by decide), if_pos rfl]
    rw [pObjTop.eq_def]
    dsimp only
    rw [if_pos rfl]
    rfl
  | .obj (.cons k v o), hwf, fuel, rest, hfuel, _ => by
    rw [Json.wf, JObj.wf] at hwf
    obtain ⟨hkv, hwfo⟩ := Bool.and_eq_true_iff.mp hwf
    obtain ⟨hk, hwfv⟩ := Bool.and_eq_true_iff.mp hkv
    rw [fuelJ, fuelObjTop] at hfuel
    obtain ⟨f, rfl⟩ : ∃ f, fuel = f + 2 := ⟨fuel - 2, by omega⟩
    rw [jsonEncode]
    simp only [List.cons_append, List.append_assoc, List.singleton_append, List.nil_append]
    rw [pVal.eq_def]
    dsimp only
    rw [if_neg (by decide), if_neg (by decide), if_neg (by decide), if_neg (by decide),
      if_neg (by decide), if_pos rfl]
    rw [pObjTop.eq_def]
    dsimp only
    rw [if_neg (by decide)]
    rw [pMembers_enc k v o hk hwfv hwfo f rest (by omega)]
    rfl
termination_by j _ _ _ _ _ => sizeOf j
theorem pElems_enc : ∀ (j : Json) (a : JArr), Json.wf j = true → JArr.wf a = true →
    ∀ (fuel : Nat) (rest : PyStr), fuelElems (.cons j a) ≤ fuel →
    pElems fuel (jsonEncode j ++ (encArr a ++ ']' :: rest)) = some (.cons j a, rest)
  | j, .nil, hwfj, _, fuel, rest, hfuel => by
    rw [fuelElems] at hfuel
    have hj := fuelJ_pos j
    obtain ⟨f, rfl⟩ : ∃ f, fuel = f + 1 := ⟨fuel - 1, by omega⟩
    rw [pElems.eq_def]
    dsimp only
    rw [pVal_enc j hwfj f (encArr .nil ++ ']' :: rest) (by omega) (numStop_encArr .nil rest)]
    simp only [encArr, List.nil_append]
    simp
  | j, .cons j2 a2, hwfj, hwfa, fuel, rest, hfuel => by
    rw [JArr.wf] at hwfa
    obtain ⟨hwfj2, hwfa2⟩ := Bool.and_eq_true_iff.mp hwfa
    rw [fuelElems] at hfuel
    have hj := fuelJ_pos j
    obtain ⟨f, rfl⟩ : ∃ f, fuel = f + 1 := ⟨fuel - 1, by omega⟩
    rw [pElems.eq_def]
    dsimp only
    rw [pVal_enc j hwfj f (encArr (.cons j2 a2) ++ ']' :: rest) (by
        have := Nat.le_max_left (fuelJ j) (fuelElems (.cons j2 a2))
        omega)
      (numStop_encArr (.cons j2 a2) rest)]
    rw [encArr]
    simp only [List.cons_append, List.append_assoc]
    rw [if_pos trivial]
    rw [pElems_enc j2 a2 hwfj2 hwfa2 f rest (by
      have := Nat.le_max_right (fuelJ j) (fuelElems (.cons j2 a2))
      omega)]
    rfl
termination_by j a _ _ _ _ _ => sizeOf j + sizeOf a
theorem pMembers_enc : ∀ (k : List Nat) (v : Json) (o : JObj),
    k.all (fun u => u < 65536) = true → Json.wf v = true → JObj.wf o = true →
    ∀ (fuel : Nat) (rest : PyStr), fuelMembers (.cons k v o) ≤ fuel →
    pMembers fuel
      ('"' :: (encUnits k ++ ('"' :: ':' :: (jsonEncode v ++ (encObj o ++ rbrace :: rest))))) =
      some (.cons k v o, rest)
  | k, v, .nil, hk, hwfv, _, fuel, rest, hfuel => by
    rw [fuelMembers] at hfuel
    have hv := fuelJ_pos v
    obtain ⟨f, rfl⟩ : ∃ f, fuel = f + 1 := ⟨fuel - 1, by omega⟩
    rw [pMembers.eq_def]
    dsimp only
    rw [if_pos rfl]
    rw [pStringUnits_enc k hk (':' :: (jsonEncode v ++ (encObj .nil ++ rbrace :: rest)))]
    dsimp only
    rw [if_pos rfl]
    rw [pVal_enc v hwfv f (encObj .nil ++ rbrace :: rest) (by
        have := Nat.le_max_left (fuelJ v) (fuelMembers JObj.nil)
        omega)
      (numStop_encObj .nil rest)]
    simp only [encObj, List.nil_append]
    simp [show rbrace ≠ ',' from by decide]
  | k, v, .cons k2 v2 o2, hk, hwfv, hwfo, fuel, rest, hfuel => by
    rw [JObj.wf] at hwfo
    obtain ⟨hkv2, hwfo2⟩ := Bool.and_eq_true_iff.mp hwfo
    obtain ⟨hk2, hwfv2⟩ := Bool.and_eq_true_iff.mp hkv2
    rw [fuelMembers] at hfuel
    have hv := fuelJ_pos v
    obtain ⟨f, rfl⟩ : ∃ f, fuel = f + 1 := ⟨fuel - 1, by omega⟩
    rw [pMembers.eq_def]
    dsimp only
    rw [if_pos rfl]
    rw [pStringUnits_enc k hk
      (':' :: (jsonEncode v ++ (encObj (.cons k2 v2 o2) ++ rbrace :: rest)))]
    dsimp only
    rw [if_pos rfl]
    rw [pVal_enc v hwfv f (encObj (.cons k2 v2 o2) ++ rbrace :: rest) (by
        have := Nat.le_max_left (fuelJ v) (fuelMembers (.cons k2 v2 o2))
        omega)
      (numStop_encObj (.cons k2 v2 o2) rest)]
    rw [encObj]
    simp only [List.cons_append, List.append_assoc, List.nil_append]
    rw [if_pos trivial]
    rw [pMembers_enc k2 v2 o2 hk2 hwfv2 hwfo2 f rest (by
      have := Nat.le_max_right (fuelJ v) (fuelMembers (.cons k2 v2 o2))
      omega)]
    rfl
termination_by _ v o _ _ _ _ _ => sizeOf v + sizeOf o
end

theorem jsonEncode_length_pos (j : Json) : 1 ≤ (jsonEncode j).length := by
  obtain ⟨c, t, hct, _⟩ := jsonEncode_head j
  rw [hct]
  simp

mutual
theorem fuelJ_le : ∀ (j : Json), fuelJ j ≤ 2 * (jsonEncode j).length
  | .null => by
    rw [fuelJ, jsonEncode]
    simp
  | .bool true => by
    rw [fuelJ, jsonEncode]
    simp
  | .bool false => by
    rw [fuelJ, jsonEncode]
    simp
  | .num i => by
    rw [fuelJ]
    have := jsonEncode_length_pos (.num i)
    omega
  | .str s => by
    rw [fuelJ]
    have := jsonEncode_length_pos (.str s)
    omega
  | .arr .nil => by
    rw [fuelJ, fuelArr, jsonEncode]
    simp
  | .arr (.cons j a) => by
    rw [fuelJ, fuelArr, jsonEncode]
    have h := fuelElems_le j a
    simp only [List.length_append, List.length_cons, List.length_nil]
    omega
  | .obj .nil => by
    rw [fuelJ, fuelObjTop, jsonEncode]
    simp
  | .obj (.cons k v o) => by
    rw [fuelJ, fuelObjTop, jsonEncode]
    have h := fuelMembers_le k v o
    simp only [List.length_append, List.length_cons, List.length_nil]
    omega
termination_by j => sizeOf j
theorem fuelElems_le : ∀ (j : Json) (a : JArr),
    fuelElems (.cons j a) ≤ 2 * ((jsonEncode j).length + (encArr a).length + 1)
  | j, .nil => by
    rw [fuelElems, fuelElems, encArr]
    have h1 := fuelJ_le j
    have h2 := jsonEncode_length_pos j
    simp only [List.length_nil]
    omega
  | j, .cons j2 a2 => by
    rw [fuelElems, encArr]
    have h1 := fuelJ_le j
    have h2 := fuelElems_le j2 a2
    have h3 := jsonEncode_length_pos j
    have h4 := Nat.le_max_left (fuelJ j) (fuelElems (.cons j2 a2))
    have h5 := Nat.le_max_right (fuelJ j) (fuelElems (.cons j2 a2))
    have h6 : (max (fuelJ j) (fuelElems (.cons j2 a2))) = fuelJ j ∨
        (max (fuelJ j) (fuelElems (.cons j2 a2))) = fuelElems (.cons j2 a2) :=
      max_choice _ _
    simp only [List.length_append, List.length_cons]
    rcases h6 with h6 | h6 <;> omega
termination_by j a => sizeOf j + sizeOf a
theorem fuelMembers_le : ∀ (k : List Nat) (v : Json) (o : JObj),
    fuelMembers (.cons k v o) ≤ 2 * ((jsonEncode v).length + (encObj o).length + 1)
  | k, v, .nil => by
    rw [fuelMembers, fuelMembers, encObj]
    have h1 := fuelJ_le v
    have h2 := jsonEncode_length_pos v
    simp only [List.length_nil]
    omega
  | k, v, .cons k2 v2 o2 => by
    rw [fuelMembers, encObj]
    have h1 := fuelJ_le v
    have h2 := fuelMembers_le k2 v2 o2
    have h3 := jsonEncode_length_pos v
    have h6 : (max (fuelJ v) (fuelMembers (.cons k2 v2 o2))) = fuelJ v ∨
        (max (fuelJ v) (fuelMembers (.cons k2 v2 o2))) = fuelMembers (.cons k2 v2 o2) :=
      max_choice _ _
    simp only [List.length_append, List.length_cons]
    rcases h6 with h6 | h6 <;> omega
termination_by _ v o => sizeOf v + sizeOf o
end

/-- Modelled `json_decode` inverts modelled `json_encode` on well-formed
values. -/
theorem jsonDecode_jsonEncode (j : Json) (hwf : Json.wf j = true) :
    jsonDecode (jsonEncode j) = some j := by
  unfold jsonDecode
  have h := pVal_enc j hwf (2 * (jsonEncode j).length + 2) []
    (by have := fuelJ_le j; omega) rfl
  rw [List.append_nil] at h
  rw [h]

/-- The payload decoder inverts the payload encoder on well-formed values. -/
theorem decode_encode (v : Json) (hwf : Json.wf v = true) :
    SecureCookieStore.decode (SecureCookieStore.encode v) = some v := by
  unfold SecureCookieStore.decode SecureCookieStore.encode
  rw [b64dec_b64enc (bytesOf (jsonEncode v)) (by
    intro x hx
    obtain ⟨c, hc, rfl⟩ := List.mem_map.mp hx
    have := jsonEncode_le v c hc
    omega)]
  rw [Option.some_bind, strOfBytes_bytesOf]
  exact jsonDecode_jsonEncode v hwf

theorem dictGet_dictSet_self {κ α : Type} [DecidableEq κ] :
    ∀ (xs : List (κ × α)) (k : κ) (v : α), dictGet (dictSet xs k v) k = some v
  | [], k, v => by simp [dictGet, dictSet]
  | (k1, v1) :: rest, k, v => by
    by_cases h : k1 = k
    · simp [dictGet, dictSet, h]
    · simp only [dictSet, if_neg h, dictGet]
      exact dictGet_dictSet_self rest k v

theorem dictSet_dictSet {κ α : Type} [DecidableEq κ] :
    ∀ (xs : List (κ × α)) (k : κ) (v w : α), dictSet (dictSet xs k v) k w = dictSet xs k w
  | [], k, v, w => by simp [dictSet]
  | (k1, v1) :: rest, k, v, w => by
    by_cases h : k1 = k
    · simp [dictSet, h]
    · simp only [dictSet, if_neg h]
      rw [dictSet_dictSet rest k v w]

theorem dictPop_dictSet {κ α : Type} [DecidableEq κ] :
    ∀ (xs : List (κ × α)) (k : κ) (v : α), dictGet xs k = none →
      dictPop (dictSet xs k v) k = xs
  | [], k, v, _ => by simp [dictSet, dictPop]
  | (k1, v1) :: rest, k, v, h => by
    rw [dictGet] at h
    by_cases hk : k1 = k
    · rw [if_pos hk] at h
      cases h
    · rw [if_neg hk] at h
      simp only [dictSet, if_neg hk, dictPop]
      rw [dictPop_dictSet rest k v h]

theorem signed_value_parts (secret name : PyStr) (v : Json) (t : Nat) :
    pySplit '|' (SecureCookieStore.get_signed_value secret name v t) =
      [SecureCookieStore.encode v, natDecimal t,
        SecureCookieStore.get_signature secret
          [name, SecureCookieStore.encode v, natDecimal t]] := by
  unfold SecureCookieStore.get_signed_value
  rw [joinSep_three]
  apply pySplit_three
  · exact pipe_not_mem_b64enc _
  · exact not_mem_of_all (natDecimal_all_digits t) pipe_not_digit
  · exact not_mem_of_all (hexOfBytes_all_hex _) pipe_not_hex

theorem signed_value_ne_nil (secret name : PyStr) (v : Json) (t : Nat) :
    SecureCookieStore.get_signed_value secret name v t ≠ [] := by
  unfold SecureCookieStore.get_signed_value
  rw [joinSep_three]
  rcases h : SecureCookieStore.encode v with _ | ⟨c, r⟩
  · simp
  · simp

/-- Evaluation of `get_cookie` on a token freshly produced by
`get_signed_value` with the same secret and name: the signature always
verifies, so only expiry and payload decoding remain. -/
theorem get_cookie_of_signed (secret name : PyStr) (v : Json) (t : Nat)
    (maxAge : Option Int) (now : Int) :
    SecureCookieStore.get_cookie secret
        [(name, SecureCookieStore.get_signed_value secret name v t)] name maxAge now =
      match maxAge with
      | none => .ok (SecureCookieStore.decode (SecureCookieStore.encode v))
      | some m =>
        if (t : Int) < now - m then .ok none
        else .ok (SecureCookieStore.decode (SecureCookieStore.encode v)) := by
  unfold SecureCookieStore.get_cookie
  rw [show dictGet [(name, SecureCookieStore.get_signed_value secret name v t)] name =
    some (SecureCookieStore.get_signed_value secret name v t) by simp [dictGet]]
  dsimp only
  rw [if_neg (signed_value_ne_nil secret name v t)]
  rw [signed_value_parts]
  dsimp only
  rw [if_pos ((check_signature_iff _ _).mpr rfl)]
  cases maxAge with
  | none => rfl
  | some m =>
    rw [pyInt_natDecimal t]

/-- C1: Round-trip — for every JSON-serializable mapping `v` and cookie
name `name`, decoding (via `get_cookie`, with no `max_age` configured and
at the same second `t`) the request cookie produced by
`get_signed_value` returns `v`. -/
theorem claim_roundtrip_secure_cookie (secret name : PyStr) (v : Json) (t : Nat)
    (hobj : v.isObj = true) (hwf : Json.wf v = true) :
    SecureCookieStore.get_cookie secret
        [(name, SecureCookieStore.get_signed_value secret name v t)] name none (t : Int) =
      Except.ok (some v) := by
  rw [get_cookie_of_signed]
  dsimp only
  rw [decode_encode v hwf]

/-- Concrete witness for the round-trip claim. -/
theorem claim_roundtrip_secure_cookie_witness :
    demoValue.isObj = true ∧ Json.wf demoValue = true ∧
      SecureCookieStore.get_cookie (pys "s3cr3t")
          [(pys "session",
            SecureCookieStore.get_signed_value (pys "s3cr3t") (pys "session") demoValue
              1234567890)]
          (pys "session") none (1234567890 : Int) =
        Except.ok (some demoValue) :=
  ⟨rfl, rfl,
    claim_roundtrip_secure_cookie (pys "s3cr3t") (pys "session") demoValue 1234567890 rfl rfl⟩

/-- C2: Tamper detection — whenever the named request cookie splits into
three fields whose third field differs from the HMAC recomputed over the
cookie name, payload field and timestamp field, `get_cookie` returns the
absent value; flipping one signature character or altering the payload
under the old signature are instances with a changed third-field
comparison. -/
theorem claim_tampered_token_absent (secret name value p0 p1 p2 : PyStr)
    (cookies : List (PyStr × PyStr)) (maxAge : Option Int) (now : Int)
    (hlk : dictGet cookies name = some value)
    (hsplit : pySplit '|' value = [p0, p1, p2])
    (hne : p2 ≠ SecureCookieStore.get_signature secret [name, p0, p1]) :
    SecureCookieStore.get_cookie secret cookies name maxAge now = Except.ok none := by
  unfold SecureCookieStore.get_cookie
  rw [hlk]
  dsimp only
  have hvne : value ≠ [] := by
    intro h
    rw [h] at hsplit
    simp [pySplit] at hsplit
  rw [if_neg hvne, hsplit]
  dsimp only
  rw [if_neg (fun hc => hne ((check_signature_iff _ _).mp hc))]

set_option maxRecDepth 40000 in
/-- Concrete witness for the tamper-detection claim. -/
theorem claim_tampered_token_absent_witness :
    dictGet [(pys "n", pys "a|b|c")] (pys "n") = some (pys "a|b|c") ∧
      pySplit '|' (pys "a|b|c") = [pys "a", pys "b", pys "c"] ∧
      pys "c" ≠ SecureCookieStore.get_signature (pys "k") [pys "n", pys "a", pys "b"] ∧
      SecureCookieStore.get_cookie (pys "k") [(pys "n", pys "a|b|c")] (pys "n") none 0 =
        Except.ok none :=
  ⟨by decide, by decide, by decide,
    claim_tampered_token_absent (pys "k") (pys "n") (pys "a|b|c") (pys "a") (pys "b")
      (pys "c") [(pys "n", pys "a|b|c")] none 0 (by decide) (by decide) (by decide)⟩

/-- C4: Expiry enforcement — with `max_age = m` configured, a token signed
at second `t` decodes to absent exactly when `t < now - m`, and otherwise
decodes successfully. -/
theorem claim_expiry_enforced (secret name : PyStr) (v : Json) (t : Nat) (m now : Int)
    (hwf : Json.wf v = true) :
    SecureCookieStore.get_cookie secret
        [(name, SecureCookieStore.get_signed_value secret name v t)] name (some m) now =
      Except.ok (if (t : Int) < now - m then none else some v) := by
  rw [get_cookie_of_signed]
  dsimp only
  rw [decode_encode v hwf]
  by_cases h : (t : Int) < now - m
  · rw [if_pos h, if_pos h]
  · rw [if_neg h, if_neg h]

/-- Concrete witness for the expiry claim: `max_age = 10`, one token
stamped at `now - 11` and one at `now - 9`. -/
theorem claim_expiry_enforced_witness :
    Json.wf demoValue = true ∧
      SecureCookieStore.get_cookie (pys "s3cr3t")
          [(pys "session",
            SecureCookieStore.get_signed_value (pys "s3cr3t") (pys "session") demoValue 989)]
          (pys "session") (some 10) 1000 =
        Except.ok (if ((989 : Nat) : Int) < 1000 - 10 then none else some demoValue) ∧
      SecureCookieStore.get_cookie (pys "s3cr3t")
          [(pys "session",
            SecureCookieStore.get_signed_value (pys "s3cr3t") (pys "session") demoValue 991)]
          (pys "session") (some 10) 1000 =
        Except.ok (if ((991 : Nat) : Int) < 1000 - 10 then none else some demoValue) :=
  ⟨rfl,
    claim_expiry_enforced (pys "s3cr3t") (pys "session") demoValue 989 10 1000 rfl,
    claim_expiry_enforced (pys "s3cr3t") (pys "session") demoValue 991 10 1000 rfl⟩

/-- C5: Wire format — `get_signed_value` is exactly the base64 payload, a
pipe, the decimal timestamp, a pipe, and the hex HMAC-SHA1 digest over
the bytes of name, pipe, payload, pipe, timestamp, in that order; and
every character of the signature field is a lowercase hex digit. -/
theorem claim_wire_format (secret name : PyStr) (v : Json) (t : Nat) :
    SecureCookieStore.get_signed_value secret name v t = specSignedToken secret name v t ∧
      (SecureCookieStore.get_signature secret
        [name, SecureCookieStore.encode v, natDecimal t]).all isHexCh = true := by
  constructor
  · unfold SecureCookieStore.get_signed_value specSignedToken SecureCookieStore.get_signature
      SecureCookieStore.encode
    simp only [joinSep_three]
  · exact hexOfBytes_all_hex _

/-- C7: An unmodified session is not re-saved — `save_session` leaves the
response unchanged whenever the session's `modified` flag is false. -/
theorem claim_unmodified_session_not_saved (s : Session) (resp : Response)
    (st : SessionStoreState) (name : PyStr) (kwargs : CookieArgs) (now : Nat)
    (h : s.modified = false) :
    SecureCookieSession.save_session s resp st name kwargs now = resp := by
  unfold SecureCookieSession.save_session
  rw [h]
  simp

/-- Concrete witness for the unmodified-session claim. -/
theorem claim_unmodified_session_not_saved_witness :
    (⟨[], false⟩ : Session).modified = false ∧
      SecureCookieSession.save_session ⟨[], false⟩ ⟨[]⟩ freshStore (pys "session") [] 0 =
        ⟨[]⟩ :=
  ⟨rfl, claim_unmodified_session_not_saved ⟨[], false⟩ ⟨[]⟩ freshStore (pys "session") [] 0 rfl⟩

set_option maxRecDepth 40000 in
/-- C3 counterexample: a three-field cookie with a valid signature over a
non-numeric timestamp field makes `get_cookie` raise `ValueError` when a
`max_age` is configured — an exception does propagate past the decode
boundary. -/
theorem claim_decode_total_counterexample :
    SecureCookieStore.get_cookie (pys "s3cr3t")
        [(pys "session",
          pys "eyJ1aWQiOjQyfQ==|abc|365fc04393e29efd869300719aa3f37c0df09bcd")]
        (pys "session") (some 10) 1000 = Except.error PyErr.valueError := rfl

/-- C3 amended: `get_cookie` raises exactly when `max_age` is configured
and the named cookie is a three-field token whose signature verifies but
whose timestamp field is not a valid integer (the uncaught
`int(parts[1])`); every other failure is normalized to the absent value
in a normal return. -/
theorem claim_decode_error_characterization (secret : PyStr)
    (cookies : List (PyStr × PyStr)) (name : PyStr) (maxAge : Option Int) (now : Int)
    (e : PyErr) :
    SecureCookieStore.get_cookie secret cookies name maxAge now = Except.error e ↔
      (e = PyErr.valueError ∧ maxAge.isSome = true ∧
        badTimestampCookie secret cookies name = true) := by
  unfold SecureCookieStore.get_cookie badTimestampCookie
  cases hl : dictGet cookies name with
  | none => simp
  | some value =>
    dsimp only
    by_cases hv : value = []
    · simp [hv]
    · rw [if_neg hv, if_neg hv]
      rcases hs : pySplit '|' value with _ | ⟨p0, tail⟩
      · simp
      · rcases tail with _ | ⟨p1, tail2⟩
        · simp
        · rcases tail2 with _ | ⟨p2, tail3⟩
          · simp
          · rcases tail3 with _ | ⟨p3, tail4⟩
            · dsimp only
              by_cases hc : SecureCookieStore.check_signature p2
                  (SecureCookieStore.get_signature secret [name, p0, p1]) = true
              · rw [if_pos hc]
                cases maxAge with
                | none => simp [hc]
                | some m =>
                  cases hp : pyInt p1 with
                  | none =>
                    simp [hc, hp]
                    constructor
                    · intro he
                      rw [← he]
                    · intro he
                      rw [he]
                  | some ts =>
                    by_cases ht : ts < now - m
                    · simp [hc, hp, ht]
                    · simp [hc, hp, ht]
              · have hcf : SecureCookieStore.check_signature p2
                    (SecureCookieStore.get_signature secret [name, p0, p1]) = false := by
                  revert hc
                  cases SecureCookieStore.check_signature p2
                    (SecureCookieStore.get_signature secret [name, p0, p1]) <;> simp
                rw [if_neg hc]
                simp [hcf]
            · simp

/-- State characterization of a successful `get_session`: the resulting
store differs from the input only by the per-backend dictionary, and the
returned session is cached in it under the resolved key. -/
theorem get_session_ok_state (backends : List (PyStr × BackendLoad))
    (st : SessionStoreState) (key backend : Option PyStr) (kwargs : CookieArgs)
    (now : Int) (s : Session) (st1 : SessionStoreState)
    (h : SessionStore.get_session backends st key backend kwargs now = Except.ok (s, st1)) :
    ∃ inner1 args,
      st1 = { st with
          sessions := dictSet st.sessions (orDefault backend st.default_backend) inner1 } ∧
      dictGet inner1 (orDefault key st.cookie_name) = some (s, args) := by
  simp only [SessionStore.get_session] at h
  split at h
  next entry heq =>
    simp only [Except.ok.injEq, Prod.mk.injEq] at h
    obtain ⟨hs, hst⟩ := h
    refine ⟨(dictGet st.sessions (orDefault backend st.default_backend)).getD [],
      entry.2, hst.symm, ?_⟩
    rw [heq, ← hs]
  next heq =>
    split at h
    next hbk => cases h
    next load hbk =>
      split at h
      next e hld => cases h
      next value hld =>
        simp only [Except.ok.injEq, Prod.mk.injEq] at h
        obtain ⟨hs, hst⟩ := h
        refine ⟨dictSet ((dictGet st.sessions (orDefault backend st.default_backend)).getD [])
          (orDefault key st.cookie_name) (value, SessionStore.get_cookie_args kwargs),
          SessionStore.get_cookie_args kwargs, ?_, ?_⟩
        · rw [← hst]
          rw [dictSet_dictSet]
        · rw [dictGet_dictSet_self, hs]

/-- C6: Session identity — when a `get_session` call succeeds, any second
call on the resulting store with the same key and backend returns the
very session cached by the first call and leaves the store unchanged,
independently of the registry, the cookie options and the clock — so the
backend load cannot run again. -/
theorem claim_session_identity (backends backends2 : List (PyStr × BackendLoad))
    (st : SessionStoreState) (key backend : Option PyStr) (kwargs kwargs2 : CookieArgs)
    (now now2 : Int) (s : Session) (st1 : SessionStoreState)
    (h : SessionStore.get_session backends st key backend kwargs now = Except.ok (s, st1)) :
    SessionStore.get_session backends2 st1 key backend kwargs2 now2 = Except.ok (s, st1) := by
  obtain ⟨inner1, args, rfl, hget⟩ :=
    get_session_ok_state backends st key backend kwargs now s st1 h
  simp only [SessionStore.get_session]
  rw [dictGet_dictSet_self]
  simp only [Option.getD_some]
  rw [hget]
  dsimp only
  rw [dictSet_dictSet]

/-- Concrete witness for the session-identity claim: a first call on a
fresh store with a trivial backend registry. -/
theorem claim_session_identity_witness :
    SessionStore.get_session [(pys "securecookie", fun _ _ _ _ => Except.ok ⟨[], false⟩)]
        freshStore (some (pys "foo")) (some (pys "securecookie")) [] 0 =
      Except.ok ((⟨[], false⟩ : Session),
        { freshStore with
            sessions := dictSet freshStore.sessions (pys "securecookie")
              (dictSet [] (pys "foo") (⟨[], false⟩, SessionStore.get_cookie_args [])) }) ∧
      SessionStore.get_session [(pys "securecookie", fun _ _ _ _ => Except.ok ⟨[], false⟩)]
          { freshStore with
              sessions := dictSet freshStore.sessions (pys "securecookie")
                (dictSet [] (pys "foo") (⟨[], false⟩, SessionStore.get_cookie_args [])) }
          (some (pys "foo")) (some (pys "securecookie")) [] 0 =
        Except.ok ((⟨[], false⟩ : Session),
          { freshStore with
              sessions := dictSet freshStore.sessions (pys "securecookie")
                (dictSet [] (pys "foo") (⟨[], false⟩, SessionStore.get_cookie_args [])) }) :=
  ⟨rfl,
    claim_session_identity
      [(pys "securecookie", fun _ _ _ _ => Except.ok ⟨[], false⟩)]
      [(pys "securecookie", fun _ _ _ _ => Except.ok ⟨[], false⟩)]
      freshStore (some (pys "foo")) (some (pys "securecookie")) [] [] 0 0 ⟨[], false⟩ _ rfl⟩

/-- C8 counterexample: in a session that already stores a flash list
(here `["c"]`), `add_flash "a"; add_flash "b"; get_flashes()` returns
`["c", "a", "b"]`, not `["a", "b"]` — so the property fails for a session
whose flash key is already set. -/
theorem claim_flash_semantics_counterexample :
    ¬ (((BaseSession.add_flash
            ⟨[(flashDefaultKey, Json.arr (.cons (Json.str [99]) .nil))], false⟩
            (Json.str [97]) flashDefaultKey).bind
          (fun s1 => BaseSession.add_flash s1 (Json.str [98]) flashDefaultKey)).map
        (fun s2 => (BaseSession.get_flashes s2 flashDefaultKey).1) =
      Except.ok (Json.arr (.cons (Json.str [97]) (.cons (Json.str [98]) .nil)))) := by
  intro h
  have h2 : (Except.ok
        (Json.arr (.cons (Json.str [99]) (.cons (Json.str [97]) (.cons (Json.str [98]) .nil)))) :
        Except PyErr Json) =
      Except.ok (Json.arr (.cons (Json.str [97]) (.cons (Json.str [98]) .nil))) := by
    rw [← h]
    exact rfl
  simp at h2

/-- C8 amended: for every session in which the flash key is not currently
set, `add_flash a` then `add_flash b` then `get_flashes` returns
`[a, b]` and removes the stored sequence (a subsequent `get_flashes`
returns `[]`), and `get_flashes` on the original session returns `[]`
without changing the session, in particular without setting `modified`. -/
theorem claim_flash_semantics (s : Session) (a b : Json) (key : List Nat)
    (habs : dictGet s.data key = none) :
    ((BaseSession.add_flash s a key).bind
        (fun s1 => BaseSession.add_flash s1 b key)).map
        (fun s2 => BaseSession.get_flashes s2 key) =
      Except.ok (Json.arr (.cons a (.cons b .nil)), (⟨s.data, true⟩ : Session)) ∧
      BaseSession.get_flashes ⟨s.data, true⟩ key = (Json.arr .nil, ⟨s.data, true⟩) ∧
      BaseSession.get_flashes s key = (Json.arr .nil, s) := by
  refine ⟨?_, ?_, ?_⟩
  · unfold BaseSession.add_flash
    rw [habs]
    dsimp only [Except.bind]
    rw [dictGet_dictSet_self]
    dsimp only [JArr.push]
    rw [dictSet_dictSet]
    dsimp only [Except.map]
    unfold BaseSession.get_flashes
    rw [dictGet_dictSet_self]
    dsimp only
    rw [dictPop_dictSet s.data key _ habs]
  · unfold BaseSession.get_flashes
    rw [habs]
  · unfold BaseSession.get_flashes
    rw [habs]

/-- Concrete witness for the amended flash claim: an empty session. -/
theorem claim_flash_semantics_witness :
    dictGet (Session.data ⟨[], false⟩) flashDefaultKey = none ∧
      ((BaseSession.add_flash ⟨[], false⟩ (Json.str [97]) flashDefaultKey).bind
          (fun s1 => BaseSession.add_flash s1 (Json.str [98]) flashDefaultKey)).map
          (fun s2 => BaseSession.get_flashes s2 flashDefaultKey) =
        Except.ok (Json.arr (.cons (Json.str [97]) (.cons (Json.str [98]) .nil)),
          (⟨[], true⟩ : Session)) ∧
      BaseSession.get_flashes ⟨[], true⟩ flashDefaultKey = (Json.arr .nil, ⟨[], true⟩) ∧
      BaseSession.get_flashes ⟨[], false⟩ flashDefaultKey = (Json.arr .nil, ⟨[], false⟩) :=
  ⟨rfl, claim_flash_semantics ⟨[], false⟩ (Json.str [97]) (Json.str [98]) flashDefaultKey rfl⟩

/-- C9: evaluated at the failing input — on a fresh store with no session
loaded or set, `set_session` raises `KeyError` because
`self._sessions[backend]` is indexed without a `setdefault`, instead of
tracking the entry as the spec describes. -/
theorem claim_set_session_keyerror_on_fresh_store :
    SessionStore.set_session freshStore (pys "foo") ⟨[], false⟩
        (some (pys "securecookie")) [] = Except.error PyErr.keyError := rfl

/-- C10: the handler-facing mixin returns the tracked session from
`get_session` with the `securecookie` backend, not the raw decoded
value; in particular, whenever the raw secure-cookie decode is absent
(missing, tampered or expired cookie) and the pair is untracked, it
returns an empty session rather than an absent value. -/
theorem claim_mixin_returns_tracked_session (st : SessionStoreState) (key : PyStr)
    (kwargs : CookieArgs) (now : Int)
    (hkey : key ≠ [])
    (hb : dictGet st.sessions (pys "securecookie") = none)
    (hraw : SessionStore.get_secure_cookie st key none now = Except.ok none) :
    SecureCookieMixin.get_secure_cookie st key kwargs now =
        SessionStore.get_session default_backends st (some key) (some (pys "securecookie"))
          kwargs now ∧
      SecureCookieMixin.get_secure_cookie st key kwargs now =
        Except.ok ((⟨[], false⟩ : Session),
          { st with
              sessions := dictSet st.sessions (pys "securecookie")
                [(key, ((⟨[], false⟩ : Session), SessionStore.get_cookie_args kwargs))] }) := by
  refine ⟨rfl, ?_⟩
  unfold SecureCookieMixin.get_secure_cookie
  simp only [SessionStore.get_session]
  rw [show orDefault (some key) st.cookie_name = key by
    unfold orDefault
    dsimp only
    rw [if_neg hkey]]
  rw [show orDefault (some (pys "securecookie")) st.default_backend = pys "securecookie" by
    unfold orDefault
    dsimp only
    rw [if_neg (by decide)]]
  rw [hb]
  simp only [Option.getD_none]
  rw [show dictGet ([] : List (PyStr × (Session × CookieArgs))) key = none from rfl]
  dsimp only
  rw [show dictGet default_backends (pys "securecookie") =
      some SecureCookieSession.loadBackend by
    unfold default_backends
    simp [dictGet]]
  dsimp only
  unfold SecureCookieSession.loadBackend SecureCookieSession.load
  have hraw2 : SessionStore.get_secure_cookie
      { st with sessions := dictSet st.sessions (pys "securecookie") [] } key none now =
      Except.ok none := hraw
  rw [hraw2]
  dsimp only
  rw [dictSet_dictSet]
  rfl

/-- Concrete witness for the mixin claim: a fresh store whose request
carries no cookies. -/
theorem claim_mixin_returns_tracked_session_witness :
    pys "a" ≠ [] ∧
      dictGet freshStore.sessions (pys "securecookie") = none ∧
      SessionStore.get_secure_cookie freshStore (pys "a") none 0 = Except.ok none ∧
      (SecureCookieMixin.get_secure_cookie freshStore (pys "a") [] 0 =
          SessionStore.get_session default_backends freshStore (some (pys "a"))
            (some (pys "securecookie")) [] 0 ∧
        SecureCookieMixin.get_secure_cookie freshStore (pys "a") [] 0 =
          Except.ok ((⟨[], false⟩ : Session),
            { freshStore with
                sessions := dictSet freshStore.sessions (pys "securecookie")
                  [(pys "a",
                    ((⟨[], false⟩ : Session), SessionStore.get_cookie_args []))] })) :=
  ⟨by decide, rfl, rfl,
    claim_mixin_returns_tracked_session freshStore (pys "a") [] 0 (by decide) rfl rfl⟩

end Tipfy
